import Mathlib

set_option maxRecDepth 100000

/-!
# Verification of the slacker ingestion-and-consistency engine

A shallow embedding of the repository's storage layer (`src/storage/db.js`),
history importer (`src/history/index.js`), poller (`src/listener/poller.js`)
and query layer (`src/agent/mcp.js`), together with theorems settling the
frozen claims about them.

Conventions:
* SQLite tables are association lists kept in insertion order; an
  `ON CONFLICT DO UPDATE` updates the matching row in place, an insert
  appends at the end (mirroring rowid order).
* SQLite `TEXT` values are Lean `String`s; SQLite's BINARY collation, the
  JavaScript `>` on strings and Lean's `String` order all agree on the
  ASCII timestamp strings the system uses.
* `datetime('now')` and `Date.now()` are passed in as explicit parameters.
* JSON payloads that the code treats as opaque blobs (reactions,
  attachments, blocks, the raw event) are carried as opaque strings.
-/

namespace Slacker

/-- A `Decidable` instance for `String` order that the kernel can evaluate
(the builtin `String.decidableLT` is backed by the non-reducing
`String.ltb`). The proposition decided is unchanged — SQLite BINARY
collation and the JavaScript string order on these ASCII strings. -/
instance (priority := 2000) decStrLt (a b : String) : Decidable (a < b) :=
  decidable_of_iff (a.toList < b.toList) String.lt_iff_toList_lt.symm

/-- Kernel-evaluable `Decidable` instance for `String` `≤`. -/
instance (priority := 2000) decStrLe (a b : String) : Decidable (a ≤ b) :=
  decidable_of_iff (a.toList ≤ b.toList) String.le_iff_toList_le.symm

/-! ## Generic list helpers -/

/-- Update the first element satisfying `p` (SQL `UPDATE` through a primary-key
conflict touches exactly the one conflicting row). -/
def updateWhere (p : α → Bool) (f : α → α) : List α → List α
  | [] => []
  | x :: xs => if p x then f x :: xs else x :: updateWhere p f xs

/-! ## Data model (`src/storage/db.js`, `migrate`) -/

/-- An incoming Slack message object, with the fields `upsertMessage` reads.
`reactions`, `attachments`, `blocks` stand for the `JSON.stringify` of the
corresponding payload when present; `edited_ts` is `msg.edited?.ts`;
`bot_profile_name` is `msg.bot_profile?.name`. -/
structure SlackMsg where
  ts : String
  user : Option String
  text : Option String
  thread_ts : Option String
  reply_count : Option Nat
  reactions : Option String
  attachments : Option String
  permalink : Option String
  subtype : Option String
  edited_ts : Option String
  blocks : Option String
  bot_id : Option String
  bot_profile_name : Option String
deriving DecidableEq

/-- Stands for `JSON.stringify(msg)`: some deterministic serialization of the
event object. The exact format never matters; only that it is a function of
the message. -/
def SlackMsg.rawJson (m : SlackMsg) : String :=
  String.intercalate "|" ([m.ts, m.user.getD "", m.text.getD "",
    m.thread_ts.getD "", toString (m.reply_count.getD 0), m.reactions.getD "",
    m.attachments.getD "", m.permalink.getD "", m.subtype.getD "",
    m.edited_ts.getD "", m.blocks.getD "", m.bot_id.getD "",
    m.bot_profile_name.getD ""])

/-- An incoming Slack channel object (`conversations.list` element or channel
event payload), with the fields `upsertChannel` reads. `topic`/`purpose`
stand for `ch.topic?.value` / `ch.purpose?.value`. -/
structure SlackChannel where
  id : String
  name : Option String
  is_private : Bool
  topic : Option String
  purpose : Option String
  is_im : Bool
  is_mpim : Bool
  user : Option String
deriving DecidableEq

/-- The profile sub-object of a Slack user. -/
structure SlackProfile where
  real_name : Option String
  display_name : Option String
  title : Option String
  email : Option String
  status_text : Option String
  status_emoji : Option String
  image_192 : Option String
  image_72 : Option String
deriving DecidableEq

/-- `u.profile ?? {}` -/
def emptyProfile : SlackProfile := ⟨none, none, none, none, none, none, none, none⟩

/-- An incoming Slack user object, with the fields `upsertUser` reads. -/
structure SlackUser where
  id : String
  name : Option String
  real_name : Option String
  is_bot : Bool
  tz : Option String
  profile : Option SlackProfile
deriving DecidableEq

/-- A row of the `messages` table. Primary key `(channel_id, ts)`; `rowid` is
SQLite's implicit rowid, referenced by the full-text index. -/
structure MessageRow where
  rowid : Nat
  ts : String
  channel_id : String
  user_id : Option String
  text : String
  thread_ts : Option String
  reply_count : Nat
  reactions : Option String
  attachments : Option String
  permalink : Option String
  raw : String
  imported_at : String
  subtype : Option String
  edited_at : Option String
  blocks : Option String
  bot_id : Option String
  bot_profile_name : Option String
deriving DecidableEq

/-- A row of the `channels` table (flags stored as 0/1 integers, as SQLite does). -/
structure ChannelRow where
  id : String
  name : Option String
  is_private : Nat
  topic : String
  purpose : String
  is_im : Nat
  is_mpim : Nat
  dm_user_id : Option String
  updated_at : String
deriving DecidableEq

/-- A row of the `users` table. `upsertUser` always writes non-NULL strings,
so the text columns are plain `String`s. -/
structure UserRow where
  id : String
  name : String
  real_name : String
  display_name : String
  is_bot : Nat
  title : String
  email : String
  timezone : String
  status_text : String
  status_emoji : String
  avatar_url : String
  updated_at : String
deriving DecidableEq

/-- An entry of the `messages_fts` FTS5 external-content table: the indexed
columns for one message row, keyed by the content rowid. -/
structure FtsEntry where
  rowid : Nat
  text : String
  user_name : String
  channel_name : String
deriving DecidableEq

/-- A row of `import_cursors`. `oldest_ts` is declared in the schema but the
importer's upsert never writes it, so it stays NULL. -/
structure ImportCursorRow where
  oldest_ts : Option String
  latest_ts : String
  updated_at : String
deriving DecidableEq

/-- A row of `poll_cursors`. -/
structure PollCursorRow where
  latest_ts : String
  updated_at : String
deriving DecidableEq

/-- The persisted state owned by the store: the SQLite database restricted to
the tables the claims are about. `nextRowid` is SQLite's next fresh rowid for
`messages`. -/
structure Store where
  channels : List ChannelRow
  users : List UserRow
  messages : List MessageRow
  fts : List FtsEntry
  nextRowid : Nat
  importCursors : List (String × ImportCursorRow)
  pollCursors : List (String × PollCursorRow)
deriving DecidableEq

/-- A freshly created database. -/
def emptyStore : Store := ⟨[], [], [], [], 1, [], []⟩

/-! ## Store operations (`src/storage/db.js`) -/

/-- `COALESCE((SELECT display_name FROM users WHERE id = ?),
(SELECT name FROM users WHERE id = ?), '')` as used by the `messages_ai` /
`messages_ad` triggers. Since `upsertUser` always writes a non-NULL
`display_name`, the first COALESCE branch wins whenever the user row exists. -/
def ftsUserName (s : Store) (uid : Option String) : String :=
  match uid with
  | none => ""
  | some u =>
    match s.users.find? (fun r => r.id == u) with
    | some row => row.display_name
    | none => ""

/-- `COALESCE((SELECT name FROM channels WHERE id = ?), '')` as used by the
FTS triggers. -/
def ftsChannelName (s : Store) (cid : String) : String :=
  match s.channels.find? (fun r => r.id == cid) with
  | some row => row.name.getD ""
  | none => ""

/-- The row predicate for the `(channel_id, ts)` primary key of `messages`. -/
def msgKeyIs (channelId ts : String) (r : MessageRow) : Bool :=
  r.channel_id == channelId && r.ts == ts

/-- The `messages` row written by `upsertMessage`'s INSERT arm:
`user_id = msg.user ?? msg.bot_id ?? null`, text/thread/reply-count/payload
columns from the event, `imported_at` from the `datetime('now')` column
default. -/
def insertedMsgRow (now : String) (msg : SlackMsg) (channelId : String) (rowid : Nat) :
    MessageRow :=
  { rowid := rowid
    ts := msg.ts
    channel_id := channelId
    user_id := match msg.user with | some u => some u | none => msg.bot_id
    text := msg.text.getD ""
    thread_ts := msg.thread_ts
    reply_count := msg.reply_count.getD 0
    reactions := msg.reactions
    attachments := msg.attachments
    permalink := msg.permalink
    raw := msg.rawJson
    imported_at := now
    subtype := msg.subtype
    edited_at := msg.edited_ts
    blocks := msg.blocks
    bot_id := msg.bot_id
    bot_profile_name := msg.bot_profile_name }

/-- The `DO UPDATE SET` arm of `upsertMessage`'s upsert: exactly `text`,
`reply_count`, `reactions`, `attachments`, `permalink`, `raw`, `subtype`,
`edited_at`, `blocks`, `bot_id`, `bot_profile_name` are overwritten from the
excluded row; `user_id`, `thread_ts` and `imported_at` (and the key and
rowid) are untouched. -/
def updatedMsgRow (msg : SlackMsg) (r : MessageRow) : MessageRow :=
  { r with
      text := msg.text.getD ""
      reply_count := msg.reply_count.getD 0
      reactions := msg.reactions
      attachments := msg.attachments
      permalink := msg.permalink
      raw := msg.rawJson
      subtype := msg.subtype
      edited_at := msg.edited_ts
      blocks := msg.blocks
      bot_id := msg.bot_id
      bot_profile_name := msg.bot_profile_name }

/-- The `messages_fts` entry the `messages_ai` AFTER INSERT trigger writes
for a freshly inserted row. -/
def msgFtsEntry (s : Store) (r : MessageRow) : FtsEntry :=
  { rowid := r.rowid
    text := r.text
    user_name := ftsUserName s r.user_id
    channel_name := ftsChannelName s r.channel_id }

/-- `upsertMessage(db, msg, channelId)`:
`INSERT INTO messages (...) VALUES (...) ON CONFLICT(channel_id, ts) DO UPDATE
SET text, reply_count, reactions, attachments, permalink, raw, subtype,
edited_at, blocks, bot_id, bot_profile_name = excluded...`.
On the insert path the `messages_ai` AFTER INSERT trigger adds one
`messages_fts` entry; the schema defines no AFTER UPDATE trigger, so the
conflict path leaves `messages_fts` untouched. `imported_at` defaults to
`datetime('now')` on insert and is not in the update list. -/
def upsertMessage (now : String) (msg : SlackMsg) (channelId : String) (s : Store) : Store :=
  match s.messages.find? (msgKeyIs channelId msg.ts) with
  | none =>
    let row := insertedMsgRow now msg channelId s.nextRowid
    { s with
        messages := s.messages ++ [row]
        fts := s.fts ++ [msgFtsEntry s row]
        nextRowid := s.nextRowid + 1 }
  | some _ =>
    let rows := updateWhere (msgKeyIs channelId msg.ts) (updatedMsgRow msg) s.messages
    { s with messages := rows }

/-- `DELETE FROM messages WHERE channel_id = ? AND ts = ?` together with the
`messages_ad` AFTER DELETE trigger.  The trigger issues an FTS5
external-content `'delete'` command built from `old.text` and freshly looked
up user/channel names; FTS5 removes the index entry only when those values
match what was indexed, so a mismatched delete leaves the stale entry behind
(FTS5 documents the mismatched case as index corruption). -/
def deleteMessage (channelId ts : String) (s : Store) : Store :=
  match s.messages.find? (msgKeyIs channelId ts) with
  | none => s
  | some r =>
    let passed : FtsEntry :=
      { rowid := r.rowid
        text := r.text
        user_name := ftsUserName s r.user_id
        channel_name := ftsChannelName s channelId }
    { s with
        messages := s.messages.filter (fun m => !(msgKeyIs channelId ts m))
        fts := s.fts.filter (fun e => !(e == passed)) }

/-- An exact-text full-text query over `messages_fts`: the rowids whose
indexed text is exactly `q` (a `MATCH` for the full text of a message finds
at least its own entry, and a message whose indexed text is a different
token cannot match). -/
def ftsQueryExact (s : Store) (q : String) : List Nat :=
  (s.fts.filter (fun e => e.text == q)).map (fun e => e.rowid)

/-- The `channels` row written by `upsertChannel` (both arms write every
column). -/
def channelRowOf (now : String) (ch : SlackChannel) : ChannelRow :=
  { id := ch.id
    name := ch.name
    is_private := if ch.is_private then 1 else 0
    topic := ch.topic.getD ""
    purpose := ch.purpose.getD ""
    is_im := if ch.is_im then 1 else 0
    is_mpim := if ch.is_mpim then 1 else 0
    dm_user_id := ch.user
    updated_at := now }

/-- `upsertChannel(db, ch)`: insert-or-replace of every column, keyed by `id`. -/
def upsertChannel (now : String) (ch : SlackChannel) (s : Store) : Store :=
  match s.channels.find? (fun r => r.id == ch.id) with
  | none => { s with channels := s.channels ++ [channelRowOf now ch] }
  | some _ =>
    let rows := updateWhere (fun r => r.id == ch.id) (fun _ => channelRowOf now ch) s.channels
    { s with channels := rows }

/-- The `users` row written by `upsertUser` (both arms write every column):
`p = u.profile ?? {}`, `real_name = u.real_name ?? p.real_name ?? ''`,
`avatar_url = p.image_192 ?? p.image_72 ?? ''`. -/
def userRowOf (now : String) (u : SlackUser) : UserRow :=
  let p := u.profile.getD emptyProfile
  { id := u.id
    name := u.name.getD ""
    real_name := match u.real_name with | some r => r | none => p.real_name.getD ""
    display_name := p.display_name.getD ""
    is_bot := if u.is_bot then 1 else 0
    title := p.title.getD ""
    email := p.email.getD ""
    timezone := u.tz.getD ""
    status_text := p.status_text.getD ""
    status_emoji := p.status_emoji.getD ""
    avatar_url := match p.image_192 with | some i => i | none => p.image_72.getD ""
    updated_at := now }

/-- `upsertUser(db, u)`: insert-or-replace of every column, keyed by `id`. -/
def upsertUser (now : String) (u : SlackUser) (s : Store) : Store :=
  match s.users.find? (fun r => r.id == u.id) with
  | none => { s with users := s.users ++ [userRowOf now u] }
  | some _ =>
    let rows := updateWhere (fun r => r.id == u.id) (fun _ => userRowOf now u) s.users
    { s with users := rows }

/-- The importer's read of `import_cursors`:
`SELECT latest_ts FROM import_cursors WHERE channel_id = ?`, giving
`cursor?.latest_ts ?? undefined`. -/
def getImportCursor (s : Store) (channelId : String) : Option String :=
  match s.importCursors.find? (fun r => r.1 == channelId) with
  | some r => some r.2.latest_ts
  | none => none

/-- The importer's terminal cursor write (`importChannel`, step "Update
cursor"): `INSERT INTO import_cursors (channel_id, latest_ts, updated_at)
VALUES (...) ON CONFLICT(channel_id) DO UPDATE SET latest_ts =
excluded.latest_ts, updated_at = datetime('now')` — an unconditional
overwrite of `latest_ts`. -/
def importCursorUpsert (now channelId latestTs : String) (s : Store) : Store :=
  match s.importCursors.find? (fun r => r.1 == channelId) with
  | none =>
    { s with importCursors := s.importCursors ++ [(channelId, ⟨none, latestTs, now⟩)] }
  | some _ =>
    let rows := updateWhere (fun r => r.1 == channelId)
      (fun r => (r.1, ⟨r.2.oldest_ts, latestTs, now⟩)) s.importCursors
    { s with importCursors := rows }

/-- `getPollCursor(db, channelId)`: the stored `latest_ts`, `'0'` when no row
exists. -/
def getPollCursor (s : Store) (channelId : String) : String :=
  match s.pollCursors.find? (fun r => r.1 == channelId) with
  | some r => r.2.latest_ts
  | none => "0"

/-- `setPollCursor(db, channelId, latestTs)`: insert, or on conflict
`latest_ts = CASE WHEN excluded.latest_ts > poll_cursors.latest_ts THEN
excluded.latest_ts ELSE poll_cursors.latest_ts END` — a max-with-existing
update. -/
def setPollCursor (now channelId latestTs : String) (s : Store) : Store :=
  match s.pollCursors.find? (fun r => r.1 == channelId) with
  | none =>
    { s with pollCursors := s.pollCursors ++ [(channelId, ⟨latestTs, now⟩)] }
  | some _ =>
    let rows := updateWhere (fun r => r.1 == channelId)
      (fun r => (r.1, ⟨if r.2.latest_ts < latestTs then latestTs else r.2.latest_ts, now⟩))
      s.pollCursors
    { s with pollCursors := rows }

/-! ## History importer (`src/history/index.js`) -/

/-- One page returned by `conversations.history` / `conversations.replies`:
its messages and `response_metadata?.next_cursor`. -/
structure HistoryPage where
  messages : List SlackMsg
  next_cursor : Option String
deriving DecidableEq

/-- The outcome of one network fetch, replayed to the paging loops. The error
variants follow the importer's and poller's error taxonomy:
`err.data.error === 'ratelimited' / 'not_in_channel' / 'channel_not_found' /
'invalid_auth' / 'token_revoked'`, `err.code === 'ETIMEDOUT' /
'ECONNRESET' / 'UND_ERR_CONNECT_TIMEOUT'`, and anything else. -/
inductive FetchOutcome where
  | page (p : HistoryPage)
  | ratelimited (retryAfter : Nat)
  | notInChannel
  | channelNotFound
  | invalidAuth
  | tokenRevoked
  | timeout
  | connReset
  | otherErr
deriving DecidableEq

/-- JavaScript truthiness of an optional string (`null`, `undefined` and `''`
are falsy). -/
def strTruthy : Option String → Bool
  | some t => !(t == "")
  | none => false

/-- `importThread(client, db, channelId, threadTs, ...)`: page through
`conversations.replies`, upserting every message, while
`response_metadata?.next_cursor` is set. `pages` replays the successive
successful responses; the surrounding `try`/`catch` swallows any error,
which simply truncates the replay. Returns the new store and the number of
`upsertMessage` calls. -/
def runImportThread (now channelId : String) (s : Store) : List HistoryPage → Store × Nat
  | [] => (s, 0)
  | p :: rest =>
    let s1 := p.messages.foldl (fun acc m => upsertMessage now m channelId acc) s
    match p.next_cursor with
    | some _ =>
      let r := runImportThread now channelId s1 rest
      (r.1, p.messages.length + r.2)
    | none => (s1, p.messages.length)

/-- Process one page body of `importChannel`: upsert every message in one
batch, track the newest timestamp (`if (m.ts > newestTs) newestTs = m.ts`),
then fetch thread replies for every message with
`(m.reply_count ?? 0) > 0 && m.thread_ts`. Returns the new store, the new
newest timestamp and the number of `upsertMessage` calls made. -/
def importPageBody (now channelId : String) (threadPages : String → List HistoryPage)
    (msgs : List SlackMsg) (s : Store) (newest : String) : Store × String × Nat :=
  let s1 := msgs.foldl (fun acc m => upsertMessage now m channelId acc) s
  let newest1 := msgs.foldl (fun nt m => if nt < m.ts then m.ts else nt) newest
  let step := fun (acc : Store × Nat) (m : SlackMsg) =>
    if 0 < m.reply_count.getD 0 && strTruthy m.thread_ts then
      let r := runImportThread now channelId acc.1 (threadPages (m.thread_ts.getD ""))
      (r.1, acc.2 + r.2)
    else acc
  let t := msgs.foldl step (s1, msgs.length)
  (t.1, newest1, t.2)

/-- The `do { ... } while (pageCursor)` paging loop of `importChannel`,
replaying the successive `conversations.history` outcomes. `pageCursor`
holds `response_metadata?.next_cursor` of the last successful page
(initially `undefined`). A rate-limit error sleeps and `continue`s, which in
a `do`/`while` jumps to the `while (pageCursor)` test, so it retries only
when a previous page supplied a cursor; every other error `break`s. Returns
the store, the final `newestTs` and the total `upsertMessage` call count. -/
def importLoop (now channelId : String) (threadPages : String → List HistoryPage) :
    List FetchOutcome → Option String → Store → String → Nat → Store × String × Nat
  | [], _, s, newest, count => (s, newest, count)
  | .page p :: rest, _, s, newest, count =>
    let r := importPageBody now channelId threadPages p.messages s newest
    match p.next_cursor with
    | some c => importLoop now channelId threadPages rest (some c) r.1 r.2.1 (count + r.2.2)
    | none => (r.1, r.2.1, count + r.2.2)
  | .ratelimited _ :: rest, pc, s, newest, count =>
    match pc with
    | some c => importLoop now channelId threadPages rest (some c) s newest count
    | none => (s, newest, count)
  | .notInChannel :: _, _, s, newest, count => (s, newest, count)
  | .channelNotFound :: _, _, s, newest, count => (s, newest, count)
  | .invalidAuth :: _, _, s, newest, count => (s, newest, count)
  | .tokenRevoked :: _, _, s, newest, count => (s, newest, count)
  | .timeout :: _, _, s, newest, count => (s, newest, count)
  | .connReset :: _, _, s, newest, count => (s, newest, count)
  | .otherErr :: _, _, s, newest, count => (s, newest, count)

/-- The result of one `importChannel` run. `upsertCalls` counts every
`upsertMessage` call (channel pages and thread replies). -/
structure ImportResult where
  store : Store
  upsertCalls : Nat
deriving DecidableEq

/-- `importChannel(client, db, ch, opts)`: read the import cursor
(`oldest = cursor?.latest_ts ?? undefined`, `newestTs = oldest ?? '0'`),
optionally join the channel (no store effect; join errors are swallowed),
page through history via `importLoop`, and, however the loop exited,
terminally upsert `import_cursors` with the accumulated `newestTs`. -/
def runImportChannel (now channelId : String) (outcomes : List FetchOutcome)
    (threadPages : String → List HistoryPage) (s : Store) : ImportResult :=
  let oldest := getImportCursor s channelId
  let newest0 := oldest.getD "0"
  let r := importLoop now channelId threadPages outcomes none s newest0 0
  { store := importCursorUpsert now channelId r.2.1 r.1, upsertCalls := r.2.2 }

/-! ## Poller (`src/listener/poller.js`) -/

/-- `pollThread(channelId, threadTs, sinceTs)`: page through
`conversations.replies` upserting every message; errors are swallowed
(truncating the replay). Returns the store and the `upsertMessage` count. -/
def runPollThread (now channelId : String) (s : Store) : List HistoryPage → Store × Nat
  | [] => (s, 0)
  | p :: rest =>
    let s1 := p.messages.foldl (fun acc m => upsertMessage now m channelId acc) s
    match p.next_cursor with
    | some _ =>
      let r := runPollThread now channelId s1 rest
      (r.1, p.messages.length + r.2)
    | none => (s1, p.messages.length)

/-- Intermediate state of a `pollChannel` paging loop. `notifications` lists
the `msg.ts` values passed to `opts.onMessage`; `authFailed` means the loop
hit `invalid_auth`/`token_revoked` and returned early (setting
`running = false` and skipping the cursor update). -/
structure PollLoopState where
  store : Store
  newest : String
  fetches : Nat
  upserts : Nat
  notifications : List String
  authFailed : Bool
deriving DecidableEq

/-- The per-message body of `pollChannel`'s page handling: upsert, advance
`newestTs`, fire `onMessage` for `msg.ts > oldest`, and poll thread replies
for `(msg.reply_count ?? 0) > 0 && msg.thread_ts`. -/
def pollMsgStep (now channelId oldest : String) (threadPages : String → List HistoryPage)
    (st : PollLoopState) (m : SlackMsg) : PollLoopState :=
  let s1 := upsertMessage now m channelId st.store
  let newest1 := if st.newest < m.ts then m.ts else st.newest
  let notifs1 := if oldest < m.ts then st.notifications ++ [m.ts] else st.notifications
  let (s2, u2) :=
    if 0 < m.reply_count.getD 0 && strTruthy m.thread_ts then
      runPollThread now channelId s1 (threadPages (m.thread_ts.getD ""))
    else (s1, 0)
  { st with
      store := s2
      newest := newest1
      upserts := st.upserts + 1 + u2
      notifications := notifs1 }

/-- The `do { ... } while (pageCursor)` loop of `pollChannel`, replaying the
successive `conversations.history` outcomes. Rate limits sleep and
`continue` (re-entering only when a `pageCursor` exists);
`invalid_auth`/`token_revoked` returns early with `running = false`;
`not_in_channel`/`channel_not_found` and any other error `break`. -/
def pollLoop (now channelId oldest : String) (threadPages : String → List HistoryPage) :
    List FetchOutcome → Option String → PollLoopState → PollLoopState
  | [], _, st => st
  | .page p :: rest, _, st =>
    let st1 := p.messages.foldl (pollMsgStep now channelId oldest threadPages)
      { st with fetches := st.fetches + 1 }
    match p.next_cursor with
    | some c => pollLoop now channelId oldest threadPages rest (some c) st1
    | none => st1
  | .ratelimited _ :: rest, pc, st =>
    match pc with
    | some c => pollLoop now channelId oldest threadPages rest (some c)
        { st with fetches := st.fetches + 1 }
    | none => { st with fetches := st.fetches + 1 }
  | .invalidAuth :: _, _, st => { st with fetches := st.fetches + 1, authFailed := true }
  | .tokenRevoked :: _, _, st => { st with fetches := st.fetches + 1, authFailed := true }
  | .notInChannel :: _, _, st => { st with fetches := st.fetches + 1 }
  | .channelNotFound :: _, _, st => { st with fetches := st.fetches + 1 }
  | .timeout :: _, _, st => { st with fetches := st.fetches + 1 }
  | .connReset :: _, _, st => { st with fetches := st.fetches + 1 }
  | .otherErr :: _, _, st => { st with fetches := st.fetches + 1 }

/-- `pollChannel(ch)`: read the poll cursor; on the sentinel `'0'` set it to
`String(Date.now() / 1000)` (`nowTs`) and return without fetching anything;
otherwise run the paging loop and, unless auth failed, update the cursor
when `newestTs > oldest`. The returned `fetches` counts
`conversations.history` calls. -/
def runPollChannel (now nowTs channelId : String) (outcomes : List FetchOutcome)
    (threadPages : String → List HistoryPage) (s : Store) : PollLoopState :=
  let oldest := getPollCursor s channelId
  if oldest == "0" then
    { store := setPollCursor now channelId nowTs s, newest := oldest,
      fetches := 0, upserts := 0, notifications := [], authFailed := false }
  else
    let st := pollLoop now channelId oldest threadPages outcomes none
      { store := s, newest := oldest, fetches := 0, upserts := 0,
        notifications := [], authFailed := false }
    if st.authFailed then st
    else if oldest < st.newest then { st with store := setPollCursor now channelId st.newest st.store }
    else st

/-! ## Rate limiter (`createRateLimiter` in `src/history/index.js`)

`createRateLimiter(intervalMs)` closes over a single shared
`let next = Date.now()`. Each `acquire()` runs, on the single-threaded event
loop:

  const now = Date.now();
  if (now < next) await sleep(next - now);
  next = Math.max(Date.now(), next) + intervalMs;

The sleep duration is computed from the value of `next` seen *before* the
await, and `next` is advanced only *after* waking. -/

/-- Event-loop simulation of `C` callers that all invoke `acquire()` in the
same tick at time `t0` (the "C concurrent callers" scenario). Phase one runs
each caller's body synchronously up to its first `await`: a caller that
grants immediately advances `next`; a caller that must wait registers a
timer for the value of `next` it observed. In this burst every sleeper
observes the same `next`, so all timers expire together; phase two resumes
them in FIFO order at their common wake time, each then advancing `next` and
resolving. Returns the grant (resolution) times in order. -/
def simulateBurst (C I t0 : Nat) : List Nat :=
  let start := fun (st : Nat × List Nat × List Nat) (_ : Nat) =>
    let (nxt, wakes, grants) := st
    if t0 < nxt then (nxt, wakes ++ [nxt], grants)
    else (max t0 nxt + I, wakes, grants ++ [t0])
  let p1 := (List.range C).foldl start (t0, [], [])
  let wake := fun (st : Nat × List Nat) (w : Nat) =>
    let (nxt, grants) := st
    (max w nxt + I, grants ++ [w])
  (p1.2.1.foldl wake (p1.1, p1.2.2)).2

/-! ## Bounded-concurrency scheduler (`parallelMap` in `src/history/index.js`)

`parallelMap(items, concurrency, fn)` spawns
`Math.min(concurrency, items.length)` copies of

  async function worker() {
    while (idx < items.length) { const i = idx++; results[i] = await fn(items[i], i); }
  }

over one shared `idx`, and awaits `Promise.all(workers)`. The claim check
(`idx < items.length`) and the increment are synchronous, hence atomic on
the event loop; each worker has at most one item in flight. A worker whose
`fn` call throws rejects (no `try`/`catch` in the loop) and claims nothing
further. We model the interleaving as a small-step transition system over
the worker pool. -/

/-- The status of one `worker()` task: at the loop head, awaiting `fn` on one
claimed item, resolved (loop exited), or rejected (its `fn(items[i])`
threw). -/
inductive WStatus where
  | idle
  | running (i : Nat)
  | done
  | failed (i : Nat)
deriving DecidableEq

/-- `true` for a worker currently awaiting `fn` on a claimed item. -/
def WStatus.isRunning : WStatus → Bool
  | .running _ => true
  | _ => false

/-- `true` for a settled worker promise (resolved or rejected). -/
def WStatus.settled : WStatus → Bool
  | .done => true
  | .failed _ => true
  | _ => false

/-- A state of a `parallelMap` run: the shared claim cursor `idx`, the worker
pool, and the indices whose `fn` call has completed (latest first). -/
structure PMState where
  idx : Nat
  workers : List WStatus
  completed : List Nat
deriving DecidableEq

/-- The state in which `parallelMap(items, K, fn)` starts:
`Math.min(K, items.length)` idle workers, `idx = 0`. -/
def pmInit (K n : Nat) : PMState := ⟨0, List.replicate (min K n) .idle, []⟩

/-- Every worker promise has settled, i.e. `Promise.all(workers)` has an
outcome. -/
def pmSettled (s : PMState) : Prop := ∀ st ∈ s.workers, st.settled = true

instance (s : PMState) : Decidable (pmSettled s) := by
  unfold pmSettled
  infer_instance

/-- One event-loop transition of a `parallelMap` run with `n` items, where
`throws i = true` means `fn(items[i])` rejects. A worker at the loop head
atomically claims the next index (or exits the loop when `idx` reached `n`);
a worker awaiting `fn` either completes the item or observes the throw and
rejects. -/
inductive PMStep (n : Nat) (throws : Nat → Bool) : PMState → PMState → Prop
  | claim (s : PMState) (w : Nat) (hw : s.workers[w]? = some .idle) (h : s.idx < n) :
      PMStep n throws s ⟨s.idx + 1, s.workers.set w (.running s.idx), s.completed⟩
  | exit (s : PMState) (w : Nat) (hw : s.workers[w]? = some .idle) (h : ¬ s.idx < n) :
      PMStep n throws s ⟨s.idx, s.workers.set w .done, s.completed⟩
  | finish (s : PMState) (w i : Nat) (hw : s.workers[w]? = some (.running i))
      (ht : throws i = false) :
      PMStep n throws s ⟨s.idx, s.workers.set w .idle, i :: s.completed⟩
  | throw (s : PMState) (w i : Nat) (hw : s.workers[w]? = some (.running i))
      (ht : throws i = true) :
      PMStep n throws s ⟨s.idx, s.workers.set w (.failed i), s.completed⟩

/-- The states a `parallelMap(items, K, fn)` run can reach, for any
event-loop interleaving. -/
def pmReachable (K n : Nat) (throws : Nat → Bool) : PMState → Prop :=
  Relation.ReflTransGen (PMStep n throws) (pmInit K n)

/-! ## Query layer (`SlackAgent` in `src/agent/mcp.js`) -/

/-- One row of a `searchMessages` result, with the fields `ask` reads. -/
structure SearchHit where
  ts : String
  channel_id : String
  channel_name : Option String
  thread_ts : Option String
deriving DecidableEq

/-- The deduplication key `ask` builds for a hit:
`` `${hit.channel_id}:${hit.thread_ts || hit.ts}` `` (JavaScript `||`, so a
null or empty `thread_ts` falls back to `ts`). -/
def keyOf (h : SearchHit) : String :=
  h.channel_id ++ ":" ++ (match h.thread_ts with
    | some t => if t == "" then h.ts else t
    | none => h.ts)

/-- Insertion sort of message rows by `ts` (`ORDER BY m.ts ASC`; `ts` is
unique within a channel, so the order is determined). -/
def insertByTs (m : MessageRow) : List MessageRow → List MessageRow
  | [] => [m]
  | x :: xs => if m.ts ≤ x.ts then m :: x :: xs else x :: insertByTs m xs

/-- `ORDER BY m.ts ASC` over a bag of rows. -/
def sortByTs (l : List MessageRow) : List MessageRow := l.foldr insertByTs []

/-- `getThread(db, channelId, threadTs)`: the channel's rows with
`thread_ts = @threadTs OR ts = @threadTs`, ordered by `ts`. -/
def getThread (s : Store) (channelId threadTs : String) : List MessageRow :=
  sortByTs (s.messages.filter (fun m =>
    m.channel_id == channelId && (m.thread_ts == some threadTs || m.ts == threadTs)))

/-- `getContext(db, channelId, ts, windowSize)`: rows of the channel with
`ts BETWEEN lo AND hi` where `lo`/`hi` are the timestamps `half` rows below
and above `@ts` (`LIMIT 1 OFFSET @half` on the descending and ascending
scans). When either subquery yields no row it is SQL NULL and the `BETWEEN`
filters out every row. -/
def getContext (s : Store) (channelId ts : String) (windowSize : Nat) : List MessageRow :=
  let half := windowSize / 2
  let chMsgs := s.messages.filter (fun m => m.channel_id == channelId)
  let lo := ((sortByTs (chMsgs.filter (fun m => decide (m.ts ≤ ts)))).reverse.drop half).head?
  let hi := ((sortByTs (chMsgs.filter (fun m => decide (ts ≤ m.ts)))).drop half).head?
  match lo, hi with
  | some l, some h =>
    sortByTs (chMsgs.filter (fun m => decide (l.ts ≤ m.ts) && decide (m.ts ≤ h.ts)))
  | _, _ => []

/-- One value of `ask`'s `contextMap`: a full thread for a thread-reply hit,
or a symmetric surrounding window for a top-level hit. -/
structure ContextBlock where
  type : String
  channel : Option String
  messages : List MessageRow
deriving DecidableEq

/-- The block `ask` fetches for a hit: `if (hit.thread_ts)` a full thread via
`getThread`, else a window via `getContext`. -/
def blockFor (s : Store) (contextWindow : Nat) (h : SearchHit) : ContextBlock :=
  if strTruthy h.thread_ts then
    ⟨"thread", h.channel_name, getThread s h.channel_id (h.thread_ts.getD "")⟩
  else
    ⟨"context", h.channel_name, getContext s h.channel_id h.ts contextWindow⟩

/-- The `for (const hit of hits)` loop of `ask` building `contextMap` (a
string-keyed object, insertion-ordered): skip a hit whose key is already
present, otherwise add its block. -/
def askLoop (s : Store) (contextWindow : Nat) :
    List SearchHit → List (String × ContextBlock) → List (String × ContextBlock)
  | [], acc => acc
  | h :: rest, acc =>
    if acc.any (fun e => e.1 == keyOf h) then askLoop s contextWindow rest acc
    else askLoop s contextWindow rest (acc ++ [(keyOf h, blockFor s contextWindow h)])

/-- `ask(question, opts)`'s `context` object, as a function of the search
hits (the `search` call itself ranks over the FTS index and is replayed
here by its result list). -/
def askContext (s : Store) (contextWindow : Nat) (hits : List SearchHit) :
    List (String × ContextBlock) :=
  askLoop s contextWindow hits []

/-! ## Concrete scenario data used by the claim checks -/

/-- A message event with text `hello`. -/
def msgHello : SlackMsg :=
  ⟨"1700000000.000100", some "U1", some "hello", none, none, none, none, none,
    none, none, none, none, none⟩

/-- The same `(channel, ts)` identity re-ingested with text `goodbye` (an
edit). -/
def msgGoodbye : SlackMsg :=
  ⟨"1700000000.000100", some "U1", some "goodbye", none, none, none, none, none,
    none, none, none, none, none⟩

/-- Insert `msgHello` into a fresh database, then re-upsert the same
`(channel, ts)` with text `goodbye`. -/
def editedStore : Store :=
  upsertMessage "t2" msgGoodbye "C1" (upsertMessage "t1" msgHello "C1" emptyStore)

/-- An `fn` that throws on item 0 only. -/
def throwsFirst : Nat → Bool := fun i => i == 0

/-- A demo channel object. -/
def chGeneral : SlackChannel :=
  ⟨"C1", some "general", false, some "all the things", none, false, false, none⟩

/-- A demo user object. -/
def userDemo : SlackUser :=
  ⟨"U1", some "jo", some "Jo Doe", false, some "UTC",
    some ⟨some "Jo Doe", some "jo", none, none, none, none, none, none⟩⟩

/-- A thread-free demo message whose fixed-width timestamp is
`1000000000 + i`. -/
def mkMsg (i : Nat) : SlackMsg :=
  ⟨toString (1000000000 + i), none, some "m", none, none, none, none, none,
    none, none, none, none, none⟩

/-- First history page of the backfill scenario: 200 messages. -/
def backfillPage1 : List SlackMsg := (List.range 200).map mkMsg

/-- Second history page of the backfill scenario: 200 messages. -/
def backfillPage2 : List SlackMsg := (List.range 200).map (fun i => mkMsg (200 + i))

/-- Third history page of the backfill scenario: 50 messages. -/
def backfillPage3 : List SlackMsg := (List.range 50).map (fun i => mkMsg (400 + i))

/-- The key accumulation performed by `ask`'s `contextMap` loop, projected to
keys: append each unseen key. -/
def collectKeys : List String → List String → List String
  | [], seen => seen
  | k :: rest, seen =>
    if k ∈ seen then collectKeys rest seen else collectKeys rest (seen ++ [k])

/-! ## Helper lemmas -/

theorem all_false_of_find?_none {p : α → Bool} {l : List α} (h : l.find? p = none) :
    ∀ x ∈ l, p x = false := by
  intro x hx
  have := List.find?_eq_none.mp h x hx
  simpa using this

theorem updateWhere_of_all_false {p : α → Bool} {f : α → α} :
    ∀ {l : List α}, (∀ x ∈ l, p x = false) → updateWhere p f l = l := by
  intro l h
  induction l with
  | nil => rfl
  | cons x xs ih =>
    have hp : p x = false := h x (List.mem_cons_self x xs)
    simp [updateWhere, hp, ih (fun y hy => h y (List.mem_cons_of_mem x hy))]

theorem find?_append_none {p : α → Bool} {l l' : List α} (h : l.find? p = none) :
    (l ++ l').find? p = l'.find? p := by
  rw [List.find?_append, h, Option.none_or]

theorem updateWhere_append_of_none {p : α → Bool} {f : α → α} {l l' : List α}
    (h : l.find? p = none) : updateWhere p f (l ++ l') = l ++ updateWhere p f l' := by
  have hall := all_false_of_find?_none h
  induction l with
  | nil => rfl
  | cons x xs ih =>
    have hp : p x = false := hall x (List.mem_cons_self x xs)
    have ih' := ih (List.find?_eq_none.mpr
      (fun y hy => by simp [hall y (List.mem_cons_of_mem x hy)]))
      (fun y hy => hall y (List.mem_cons_of_mem x hy))
    simp [updateWhere, hp, ih']

theorem find?_updateWhere {p : α → Bool} {f : α → α} {l : List α} {r : α}
    (h : l.find? p = some r) (hf : p (f r) = true) :
    (updateWhere p f l).find? p = some (f r) := by
  induction l with
  | nil => simp at h
  | cons x xs ih =>
    rw [List.find?_cons] at h
    cases hp : p x with
    | true =>
      simp [hp] at h
      subst h
      simp [updateWhere, hp, List.find?_cons, hf]
    | false =>
      simp [hp] at h
      simp [updateWhere, hp, List.find?_cons, ih h]

theorem updateWhere_updateWhere {p : α → Bool} {f : α → α}
    (hpf : ∀ x, p x = true → p (f x) = true) (hff : ∀ x, p x = true → f (f x) = f x) :
    ∀ l : List α, updateWhere p f (updateWhere p f l) = updateWhere p f l := by
  intro l
  induction l with
  | nil => rfl
  | cons x xs ih =>
    cases hp : p x with
    | true => simp [updateWhere, hp, hpf x hp, hff x hp]
    | false => simp [updateWhere, hp, ih]

theorem length_updateWhere {p : α → Bool} {f : α → α} :
    ∀ l : List α, (updateWhere p f l).length = l.length := by
  intro l
  induction l with
  | nil => rfl
  | cons x xs ih =>
    cases hp : p x with
    | true => simp [updateWhere, hp]
    | false => simp [updateWhere, hp, ih]

/-- `if a < b then b else a` (the SQL `CASE` and the JavaScript `>` updates)
is `max` of the linear order, for whichever `Decidable` instance the `if`
carries. -/
theorem ite_lt_eq_max {α} [LinearOrder α] (a b : α) {inst : Decidable (a < b)} :
    (@ite _ (a < b) inst b a) = max a b := by
  rcases inst with h | h
  · rw [if_neg h, max_eq_left (not_lt.mp h)]
  · rw [if_pos h, max_eq_right h.le]

theorem le_foldl_max {α} [LinearOrder α] :
    ∀ (l : List α) (a : α), a ≤ l.foldl max a := by
  intro l
  induction l with
  | nil => intro a; exact le_refl a
  | cons x xs ih =>
    intro a
    exact le_trans (le_max_left a x) (ih (max a x))

theorem foldl_max_mem {α} [LinearOrder α] :
    ∀ (l : List α) (a : α), l.foldl max a = a ∨ l.foldl max a ∈ l := by
  intro l
  induction l with
  | nil => intro a; exact Or.inl rfl
  | cons x xs ih =>
    intro a
    rcases ih (max a x) with h | h
    · rcases max_choice a x with hc | hc
      · rw [List.foldl_cons, h, hc]; exact Or.inl rfl
      · rw [List.foldl_cons, h, hc]; exact Or.inr (List.mem_cons_self x xs)
    · exact Or.inr (List.mem_cons_of_mem x h)

theorem foldl_max_of_mem {α} [LinearOrder α] :
    ∀ (l : List α) (a t : α), t ∈ l → t ≤ l.foldl max a := by
  intro l
  induction l with
  | nil => intro a t ht; simp at ht
  | cons x xs ih =>
    intro a t ht
    rcases List.mem_cons.mp ht with rfl | h
    · exact le_trans (le_max_right a t) (le_foldl_max xs (max a t))
    · exact ih (max a x) t h

/-! ## Upsert lemmas -/

theorem msgKeyIs_insertedMsgRow (now : String) (msg : SlackMsg) (cid : String) (rid : Nat) :
    msgKeyIs cid msg.ts (insertedMsgRow now msg cid rid) = true := by
  simp [msgKeyIs, insertedMsgRow]

theorem msgKeyIs_updatedMsgRow (cid ts : String) (msg : SlackMsg) (r : MessageRow) :
    msgKeyIs cid ts (updatedMsgRow msg r) = msgKeyIs cid ts r := rfl

theorem updatedMsgRow_updatedMsgRow (msg : SlackMsg) (r : MessageRow) :
    updatedMsgRow msg (updatedMsgRow msg r) = updatedMsgRow msg r := rfl

theorem updatedMsgRow_insertedMsgRow (now : String) (msg : SlackMsg) (cid : String) (rid : Nat) :
    updatedMsgRow msg (insertedMsgRow now msg cid rid) = insertedMsgRow now msg cid rid := rfl

/-- The two arms of `upsertMessage`, as equations. -/
theorem upsertMessage_insert_eq {s : Store} {cid : String} {msg : SlackMsg} (now : String)
    (hf : s.messages.find? (msgKeyIs cid msg.ts) = none) :
    upsertMessage now msg cid s =
      { s with
          messages := s.messages ++ [insertedMsgRow now msg cid s.nextRowid]
          fts := s.fts ++ [msgFtsEntry s (insertedMsgRow now msg cid s.nextRowid)]
          nextRowid := s.nextRowid + 1 } := by
  unfold upsertMessage
  rw [hf]

theorem upsertMessage_update_eq {s : Store} {cid : String} {msg : SlackMsg} {r : MessageRow}
    (now : String) (hf : s.messages.find? (msgKeyIs cid msg.ts) = some r) :
    upsertMessage now msg cid s =
      { s with messages := updateWhere (msgKeyIs cid msg.ts) (updatedMsgRow msg) s.messages } := by
  unfold upsertMessage
  rw [hf]

/-- Idempotence of `upsertMessage` over any store. -/
theorem upsertMessage_idem (now : String) (msg : SlackMsg) (cid : String) (s : Store) :
    upsertMessage now msg cid (upsertMessage now msg cid s) = upsertMessage now msg cid s := by
  cases hf : s.messages.find? (msgKeyIs cid msg.ts) with
  | none =>
    rw [upsertMessage_insert_eq now hf]
    set row := insertedMsgRow now msg cid s.nextRowid with hrowdef
    set s2 : Store := { s with
      messages := s.messages ++ [row]
      fts := s.fts ++ [msgFtsEntry s row]
      nextRowid := s.nextRowid + 1 } with hs2
    have hfind2 : s2.messages.find? (msgKeyIs cid msg.ts) = some row := by
      show (s.messages ++ [row]).find? (msgKeyIs cid msg.ts) = some row
      rw [find?_append_none hf]
      simp [List.find?, hrowdef, msgKeyIs_insertedMsgRow]
    rw [upsertMessage_update_eq now hfind2]
    have hsingle : updateWhere (msgKeyIs cid msg.ts) (updatedMsgRow msg) [row] = [row] := by
      simp [updateWhere, hrowdef, msgKeyIs_insertedMsgRow, updatedMsgRow_insertedMsgRow]
    have hrows : updateWhere (msgKeyIs cid msg.ts) (updatedMsgRow msg) s2.messages
        = s2.messages := by
      show updateWhere (msgKeyIs cid msg.ts) (updatedMsgRow msg) (s.messages ++ [row])
        = s.messages ++ [row]
      rw [updateWhere_append_of_none hf, hsingle]
    rw [hrows]
  | some r =>
    have hpr := List.find?_some hf
    rw [upsertMessage_update_eq now hf]
    set s2 : Store := { s with
      messages := updateWhere (msgKeyIs cid msg.ts) (updatedMsgRow msg) s.messages } with hs2
    have hfind2 : s2.messages.find? (msgKeyIs cid msg.ts) = some (updatedMsgRow msg r) := by
      show (updateWhere (msgKeyIs cid msg.ts) (updatedMsgRow msg) s.messages).find?
        (msgKeyIs cid msg.ts) = some (updatedMsgRow msg r)
      exact find?_updateWhere hf (by rw [msgKeyIs_updatedMsgRow]; exact hpr)
    rw [upsertMessage_update_eq now hfind2]
    have hrows : updateWhere (msgKeyIs cid msg.ts) (updatedMsgRow msg) s2.messages
        = s2.messages := by
      show updateWhere (msgKeyIs cid msg.ts) (updatedMsgRow msg)
          (updateWhere (msgKeyIs cid msg.ts) (updatedMsgRow msg) s.messages)
        = updateWhere (msgKeyIs cid msg.ts) (updatedMsgRow msg) s.messages
      exact @updateWhere_updateWhere _ (msgKeyIs cid msg.ts) (updatedMsgRow msg)
        (fun x hx => by rw [msgKeyIs_updatedMsgRow]; exact hx)
        (fun x _ => updatedMsgRow_updatedMsgRow msg x) s.messages
    rw [hrows]

/-- The two arms of `upsertChannel`, as equations. -/
theorem upsertChannel_insert_eq {s : Store} {ch : SlackChannel} (now : String)
    (hf : s.channels.find? (fun r => r.id == ch.id) = none) :
    upsertChannel now ch s = { s with channels := s.channels ++ [channelRowOf now ch] } := by
  unfold upsertChannel
  rw [hf]

theorem upsertChannel_update_eq {s : Store} {ch : SlackChannel} {r : ChannelRow} (now : String)
    (hf : s.channels.find? (fun q => q.id == ch.id) = some r) :
    upsertChannel now ch s
      = { s with channels := (updateWhere (fun q => q.id == ch.id)
            (fun _ => channelRowOf now ch) s.channels) } := by
  unfold upsertChannel
  rw [hf]

theorem upsertChannel_idem (now : String) (ch : SlackChannel) (s : Store) :
    upsertChannel now ch (upsertChannel now ch s) = upsertChannel now ch s := by
  have hrow : ((channelRowOf now ch).id == ch.id) = true := by simp [channelRowOf]
  cases hf : s.channels.find? (fun r => r.id == ch.id) with
  | none =>
    rw [upsertChannel_insert_eq now hf]
    set s2 : Store := { s with channels := s.channels ++ [channelRowOf now ch] } with hs2
    have hfind2 : s2.channels.find? (fun r => r.id == ch.id) = some (channelRowOf now ch) := by
      show (s.channels ++ [channelRowOf now ch]).find? (fun r => r.id == ch.id)
        = some (channelRowOf now ch)
      rw [find?_append_none hf]
      simp [List.find?, hrow]
    rw [upsertChannel_update_eq now hfind2]
    have hrows : updateWhere (fun q => q.id == ch.id) (fun _ => channelRowOf now ch)
        s2.channels = s2.channels := by
      show updateWhere (fun q => q.id == ch.id) (fun _ => channelRowOf now ch)
          (s.channels ++ [channelRowOf now ch]) = s.channels ++ [channelRowOf now ch]
      rw [updateWhere_append_of_none hf]
      simp [updateWhere, hrow]
    rw [hrows]
  | some r =>
    rw [upsertChannel_update_eq now hf]
    set s2 : Store := { s with channels := (updateWhere (fun q => q.id == ch.id)
      (fun _ => channelRowOf now ch) s.channels) } with hs2
    have hfind2 : s2.channels.find? (fun q => q.id == ch.id) = some (channelRowOf now ch) := by
      show (updateWhere (fun q => q.id == ch.id) (fun _ => channelRowOf now ch)
        s.channels).find? (fun q => q.id == ch.id) = some (channelRowOf now ch)
      exact find?_updateWhere hf hrow
    rw [upsertChannel_update_eq now hfind2]
    have hrows : updateWhere (fun q => q.id == ch.id) (fun _ => channelRowOf now ch)
        s2.channels = s2.channels := by
      show updateWhere (fun q => q.id == ch.id) (fun _ => channelRowOf now ch)
          (updateWhere (fun q => q.id == ch.id) (fun _ => channelRowOf now ch) s.channels)
        = updateWhere (fun q => q.id == ch.id) (fun _ => channelRowOf now ch) s.channels
      exact @updateWhere_updateWhere _ (fun q : ChannelRow => q.id == ch.id)
        (fun _ => channelRowOf now ch) (fun x _ => hrow) (fun x _ => rfl) s.channels
    rw [hrows]

/-- The two arms of `upsertUser`, as equations. -/
theorem upsertUser_insert_eq {s : Store} {u : SlackUser} (now : String)
    (hf : s.users.find? (fun r => r.id == u.id) = none) :
    upsertUser now u s = { s with users := s.users ++ [userRowOf now u] } := by
  unfold upsertUser
  rw [hf]

theorem upsertUser_update_eq {s : Store} {u : SlackUser} {r : UserRow} (now : String)
    (hf : s.users.find? (fun q => q.id == u.id) = some r) :
    upsertUser now u s
      = { s with users := (updateWhere (fun q => q.id == u.id)
            (fun _ => userRowOf now u) s.users) } := by
  unfold upsertUser
  rw [hf]

theorem upsertUser_idem (now : String) (u : SlackUser) (s : Store) :
    upsertUser now u (upsertUser now u s) = upsertUser now u s := by
  have hrow : ((userRowOf now u).id == u.id) = true := by simp [userRowOf]
  cases hf : s.users.find? (fun r => r.id == u.id) with
  | none =>
    rw [upsertUser_insert_eq now hf]
    set s2 : Store := { s with users := s.users ++ [userRowOf now u] } with hs2
    have hfind2 : s2.users.find? (fun r => r.id == u.id) = some (userRowOf now u) := by
      show (s.users ++ [userRowOf now u]).find? (fun r => r.id == u.id)
        = some (userRowOf now u)
      rw [find?_append_none hf]
      simp [List.find?, hrow]
    rw [upsertUser_update_eq now hfind2]
    have hrows : updateWhere (fun q => q.id == u.id) (fun _ => userRowOf now u)
        s2.users = s2.users := by
      show updateWhere (fun q => q.id == u.id) (fun _ => userRowOf now u)
          (s.users ++ [userRowOf now u]) = s.users ++ [userRowOf now u]
      rw [updateWhere_append_of_none hf]
      simp [updateWhere, hrow]
    rw [hrows]
  | some r =>
    rw [upsertUser_update_eq now hf]
    set s2 : Store := { s with users := (updateWhere (fun q => q.id == u.id)
      (fun _ => userRowOf now u) s.users) } with hs2
    have hfind2 : s2.users.find? (fun q => q.id == u.id) = some (userRowOf now u) := by
      show (updateWhere (fun q => q.id == u.id) (fun _ => userRowOf now u)
        s.users).find? (fun q => q.id == u.id) = some (userRowOf now u)
      exact find?_updateWhere hf hrow
    rw [upsertUser_update_eq now hfind2]
    have hrows : updateWhere (fun q => q.id == u.id) (fun _ => userRowOf now u)
        s2.users = s2.users := by
      show updateWhere (fun q => q.id == u.id) (fun _ => userRowOf now u)
          (updateWhere (fun q => q.id == u.id) (fun _ => userRowOf now u) s.users)
        = updateWhere (fun q => q.id == u.id) (fun _ => userRowOf now u) s.users
      exact @updateWhere_updateWhere _ (fun q : UserRow => q.id == u.id)
        (fun _ => userRowOf now u) (fun x _ => hrow) (fun x _ => rfl) s.users
    rw [hrows]

/-! ## Cursor lemmas -/

/-- Whether `poll_cursors` has a row for the channel. -/
def hasPollRow (s : Store) (ch : String) : Prop :=
  (s.pollCursors.find? (fun r => r.1 == ch)).isSome

theorem getPollCursor_set_of_absent {s : Store} {ch : String} (now ts : String)
    (h : s.pollCursors.find? (fun r => r.1 == ch) = none) :
    getPollCursor (setPollCursor now ch ts s) ch = ts ∧
      hasPollRow (setPollCursor now ch ts s) ch := by
  unfold setPollCursor
  rw [h]
  unfold getPollCursor hasPollRow
  simp only
  rw [find?_append_none h]
  simp [List.find?]

theorem getPollCursor_set_of_present {s : Store} {ch : String} (now ts : String)
    (h : hasPollRow s ch) :
    getPollCursor (setPollCursor now ch ts s) ch = max (getPollCursor s ch) ts ∧
      hasPollRow (setPollCursor now ch ts s) ch := by
  unfold hasPollRow at h
  cases hf : s.pollCursors.find? (fun r => r.1 == ch) with
  | none => rw [hf] at h; simp at h
  | some r =>
    have hpr := List.find?_some hf
    have hset : (setPollCursor now ch ts s).pollCursors
        = updateWhere (fun q => q.1 == ch)
            (fun q => (q.1, ⟨if q.2.latest_ts < ts then ts else q.2.latest_ts, now⟩))
            s.pollCursors := by
      unfold setPollCursor
      rw [hf]
    have hup := @find?_updateWhere _ (fun q : String × PollCursorRow => q.1 == ch)
      (fun q => (q.1, ⟨if q.2.latest_ts < ts then ts else q.2.latest_ts, now⟩))
      _ _ hf (by simpa using hpr)
    have hg : getPollCursor s ch = r.2.latest_ts := by
      unfold getPollCursor
      rw [hf]
    constructor
    · rw [hg]
      unfold getPollCursor
      rw [hset, hup]
      exact ite_lt_eq_max r.2.latest_ts ts
    · unfold hasPollRow
      rw [hset, hup]
      rfl

/-- Folding any sequence of `setPollCursor` calls over a store that already
has a row accumulates the lexicographic maximum. -/
theorem pollFold_present (ch : String) :
    ∀ (calls : List (String × String)) (s : Store), hasPollRow s ch →
      getPollCursor (calls.foldl (fun st c => setPollCursor c.1 ch c.2 st) s) ch
        = (calls.map (fun c => c.2)).foldl max (getPollCursor s ch) ∧
      hasPollRow (calls.foldl (fun st c => setPollCursor c.1 ch c.2 st) s) ch := by
  intro calls
  induction calls with
  | nil => intro s hs; exact ⟨rfl, hs⟩
  | cons c rest ih =>
    intro s hs
    obtain ⟨hval, hrow⟩ := getPollCursor_set_of_present c.1 c.2 hs
    obtain ⟨ihval, ihrow⟩ := ih (setPollCursor c.1 ch c.2 s) hrow
    refine ⟨?_, ihrow⟩
    rw [List.foldl_cons, ihval, hval, List.map_cons, List.foldl_cons]

/-- The import-cursor upsert overwrites `latest_ts` unconditionally. -/
theorem getImportCursor_upsert (now ch ts : String) (s : Store) :
    getImportCursor (importCursorUpsert now ch ts s) ch = some ts := by
  unfold importCursorUpsert
  cases hf : s.importCursors.find? (fun r => r.1 == ch) with
  | none =>
    unfold getImportCursor
    simp only
    rw [find?_append_none hf]
    simp [List.find?]
  | some r =>
    have hpr := List.find?_some hf
    unfold getImportCursor
    simp only
    rw [find?_updateWhere hf (by simpa using hpr)]

/-! ## Importer lemmas -/

/-- Messages with zero `reply_count` trigger no thread fetches: the
thread-import fold of `importPageBody` is the identity on its accumulator. -/
theorem importThreads_fold_id (now cid : String) (tp : String → List HistoryPage)
    (l : List SlackMsg) (h : ∀ m ∈ l, m.reply_count.getD 0 = 0) :
    ∀ acc : Store × Nat,
      l.foldl (fun (acc : Store × Nat) (m : SlackMsg) =>
        if 0 < m.reply_count.getD 0 && strTruthy m.thread_ts then
          let r := runImportThread now cid acc.1 (tp (m.thread_ts.getD ""))
          (r.1, acc.2 + r.2)
        else acc) acc = acc := by
  induction l with
  | nil => intro acc; rfl
  | cons m ms ih =>
    intro acc
    have hm : m.reply_count.getD 0 = 0 := h m (List.mem_cons_self m ms)
    have hcond : (0 < m.reply_count.getD 0 && strTruthy m.thread_ts) = false := by
      rw [hm]
      simp
    rw [List.foldl_cons]
    simp only [hcond, Bool.false_eq_true, if_false]
    exact ih (fun x hx => h x (List.mem_cons_of_mem m hx)) acc

/-- `importPageBody` on a page without threaded messages: upsert the batch,
fold the newest timestamp, count the page length. -/
theorem importPageBody_no_threads (now cid : String) (tp : String → List HistoryPage)
    (msgs : List SlackMsg) (s : Store) (newest : String)
    (h : ∀ m ∈ msgs, m.reply_count.getD 0 = 0) :
    importPageBody now cid tp msgs s newest
      = (msgs.foldl (fun acc m => upsertMessage now m cid acc) s,
         msgs.foldl (fun nt m => if nt < m.ts then m.ts else nt) newest,
         msgs.length) := by
  unfold importPageBody
  dsimp only
  rw [importThreads_fold_id now cid tp msgs h]

/-- The JavaScript `if (m.ts > newestTs) newestTs = m.ts` fold is a `max`
fold over the timestamps. -/
theorem foldl_newest_eq (l : List SlackMsg) (a : String) :
    l.foldl (fun nt m => if nt < m.ts then m.ts else nt) a
      = (l.map (fun m => m.ts)).foldl max a := by
  induction l generalizing a with
  | nil => rfl
  | cons m ms ih =>
    rw [List.foldl_cons, List.map_cons, List.foldl_cons, ite_lt_eq_max]
    exact ih (max a m.ts)

/-! ## Claim theorems -/

/-- C1. The claim states that after a re-upsert of the same `(channel id,
ts)` with new text the full-text index entry matches the new text (a query
for the new text returns the message, one for the superseded text does
not). The code violates this: `migrate` installs only AFTER INSERT
(`messages_ai`) and AFTER DELETE (`messages_ad`) triggers, and
`upsertMessage`'s `ON CONFLICT ... DO UPDATE` path fires neither, so the
index keeps the pre-edit text. This theorem evaluates the code at the
failing input: after inserting `hello` and re-upserting `goodbye`, the
message row holds `goodbye` while the index still answers for `hello` and
not for `goodbye`; it also shows the insert and delete-without-edit paths
do maintain the index (one entry on insert, removed on delete), and that a
delete after the edit leaves the stale entry behind. -/
theorem fts_index_stale_after_reupsert :
    editedStore.messages.map (fun r => r.text) = ["goodbye"] ∧
    ftsQueryExact editedStore "goodbye" = [] ∧
    ftsQueryExact editedStore "hello" = [1] ∧
    ftsQueryExact (upsertMessage "t1" msgHello "C1" emptyStore) "hello" = [1] ∧
    ftsQueryExact (deleteMessage "C1" "1700000000.000100"
      (upsertMessage "t1" msgHello "C1" emptyStore)) "hello" = [] ∧
    ftsQueryExact (deleteMessage "C1" "1700000000.000100" editedStore) "hello" = [1] ∧
    (deleteMessage "C1" "1700000000.000100" editedStore).messages = [] := by
  decide

/-- C4. The claim states that `C` concurrent `acquire()` calls on
`createRateLimiter(I)` are granted pairwise at least `I` apart (with
`I = 1200` ms and 5 callers, the 5th no earlier than 4800 ms after the
first). The code violates this: every caller that must wait computes its
sleep from the shared `next` *before* sleeping and advances `next` only
*after* waking, so all callers that arrive while the first permit's
interval is pending observe the same `next` and wake — and are granted —
at the same instant. Evaluating the event-loop model at the claim's own
scenario: the grant times are `0, 1200, 1200, 1200, 1200`, which are not
pairwise separated, and the 5th permit arrives 1200 ms (not ≥ 4800 ms)
after the first. -/
theorem rateLimiter_burst_collision :
    simulateBurst 5 1200 0 = [0, 1200, 1200, 1200, 1200] ∧
    ¬ (simulateBurst 5 1200 0).Pairwise (fun a b => a + 1200 ≤ b) ∧
    (simulateBurst 5 1200 0).getLast? = some 1200 ∧ 1200 < 4800 := by
  refine ⟨by decide, ?_, by decide, by decide⟩
  intro h
  rw [(by decide : simulateBurst 5 1200 0 = [0, 1200, 1200, 1200, 1200])] at h
  have := (List.pairwise_cons.mp (List.pairwise_cons.mp h).2).1 1200 (by decide)
  omega

/-- C2 counterexample. The claim says both the import-cursor and the
poll-cursor setters apply a max-with-existing update, so any call sequence
leaves the maximum ever passed. The import-cursor upsert in
`importChannel` sets `latest_ts = excluded.latest_ts` unconditionally:
writing `200` then `100` leaves `100`, strictly below the maximum `200`
that was passed. -/
theorem importCursor_not_max_counterexample :
    getImportCursor
      (importCursorUpsert "t2" "C1" "100" (importCursorUpsert "t1" "C1" "200" emptyStore))
      "C1" = some "100" ∧ ("100" : String) < "200" := by
  constructor
  · decide
  · decide

/-- C2 (amended). The poll-cursor setter does apply a max-with-existing
update: for any nonempty sequence of `setPollCursor` calls on a channel
with no prior row, in any order, the stored value is the maximum timestamp
ever passed (in the source's lexicographic string order, which agrees with
numeric order on the fixed-width timestamps Slack issues). The
import-cursor upsert instead overwrites unconditionally: after any
nonempty sequence of writes the stored value is the *last* value passed
(its monotonicity is maintained by `importChannel` seeding its `newestTs`
accumulator with the previous cursor, not by the store). -/
theorem cursor_setters_amended (ch : String) (calls : List (String × String)) (s : Store)
    (hpoll : s.pollCursors.find? (fun r => r.1 == ch) = none)
    (hne : calls ≠ []) :
    (∃ M, getPollCursor (calls.foldl (fun st c => setPollCursor c.1 ch c.2 st) s) ch = M ∧
       M ∈ calls.map (fun c => c.2) ∧ ∀ t ∈ calls.map (fun c => c.2), t ≤ M) ∧
    getImportCursor (calls.foldl (fun st c => importCursorUpsert c.1 ch c.2 st) s) ch
      = some (calls.getLast hne).2 := by
  constructor
  · cases calls with
    | nil => exact absurd rfl hne
    | cons c rest =>
      obtain ⟨hval, hrow⟩ := getPollCursor_set_of_absent c.1 c.2 hpoll
      obtain ⟨hfold, _⟩ := pollFold_present ch rest (setPollCursor c.1 ch c.2 s) hrow
      rw [List.foldl_cons]
      refine ⟨(rest.map (fun c => c.2)).foldl max c.2, ?_, ?_, ?_⟩
      · rw [hfold, hval]
      · rcases foldl_max_mem (rest.map (fun c => c.2)) c.2 with h | h
        · rw [h]; exact List.mem_cons_self _ _
        · exact List.mem_cons_of_mem _ h
      · intro t ht
        rcases List.mem_cons.mp ht with rfl | h
        · exact le_foldl_max _ _
        · exact foldl_max_of_mem _ _ _ h
  · clear hpoll
    induction calls generalizing s with
    | nil => exact absurd rfl hne
    | cons c rest ih =>
      cases rest with
      | nil =>
        rw [List.foldl_cons, List.foldl_nil, List.getLast_singleton]
        exact getImportCursor_upsert c.1 ch c.2 s
      | cons c' rest' =>
        rw [List.foldl_cons, List.getLast_cons (by simp)]
        exact ih (importCursorUpsert c.1 ch c.2 s) (by simp)

/-- C2 witness: the amended theorem applied to the spec's own example
sequence `100, 50, 200, 150` from an empty store. The poll cursor ends at
the maximum and the import cursor at the last write. -/
theorem cursor_setters_amended_witness :
    (∃ M, getPollCursor
        ([("a","100"),("b","50"),("c","200"),("d","150")].foldl
          (fun st c => setPollCursor c.1 "C1" c.2 st) emptyStore) "C1" = M ∧
       M ∈ ["100","50","200","150"] ∧ ∀ t ∈ ["100","50","200","150"], t ≤ M) ∧
    getImportCursor
      ([("a","100"),("b","50"),("c","200"),("d","150")].foldl
        (fun st c => importCursorUpsert c.1 "C1" c.2 st) emptyStore) "C1" = some "150" := by
  have h := cursor_setters_amended "C1" [("a","100"),("b","50"),("c","200"),("d","150")]
    emptyStore (by decide) (by decide)
  simpa using h

/-- C6. Upserting the same channel, user, or message twice with identical
content is idempotent: over any store, the double upsert equals the single
upsert (byte-for-byte, at one `datetime('now')` instant); and for a message
not previously present, on a store whose index has no entry at the fresh
rowid, the full-text index afterwards holds exactly one entry for that
message — the second upsert takes the conflict path, which fires no trigger
and so neither duplicates nor alters the entry. -/
theorem upsert_idempotent (now cid : String) (ch : SlackChannel) (u : SlackUser)
    (msg : SlackMsg) (s : Store) :
    upsertChannel now ch (upsertChannel now ch s) = upsertChannel now ch s ∧
    upsertUser now u (upsertUser now u s) = upsertUser now u s ∧
    upsertMessage now msg cid (upsertMessage now msg cid s) = upsertMessage now msg cid s ∧
    (s.messages.find? (msgKeyIs cid msg.ts) = none →
      (∀ e ∈ s.fts, e.rowid ≠ s.nextRowid) →
      ((upsertMessage now msg cid (upsertMessage now msg cid s)).fts.filter
        (fun e => e.rowid == s.nextRowid)).length = 1) := by
  refine ⟨upsertChannel_idem now ch s, upsertUser_idem now u s,
    upsertMessage_idem now msg cid s, ?_⟩
  intro habs hfresh
  rw [upsertMessage_idem now msg cid s, upsertMessage_insert_eq now habs]
  show ((s.fts ++ [msgFtsEntry s (insertedMsgRow now msg cid s.nextRowid)]).filter
    (fun e => e.rowid == s.nextRowid)).length = 1
  rw [List.filter_append]
  have h1 : s.fts.filter (fun e => e.rowid == s.nextRowid) = [] := by
    rw [List.filter_eq_nil_iff]
    intro e he
    simpa using hfresh e he
  rw [h1]
  simp [msgFtsEntry, insertedMsgRow]

/-- C6 witness: the idempotence theorem applied to a concrete channel, user
and message over the empty store, with the fresh-index hypotheses
discharged there. -/
theorem upsert_idempotent_witness :
    upsertMessage "t1" msgHello "C1" (upsertMessage "t1" msgHello "C1" emptyStore)
      = upsertMessage "t1" msgHello "C1" emptyStore ∧
    upsertChannel "t1" chGeneral (upsertChannel "t1" chGeneral emptyStore)
      = upsertChannel "t1" chGeneral emptyStore ∧
    upsertUser "t1" userDemo (upsertUser "t1" userDemo emptyStore)
      = upsertUser "t1" userDemo emptyStore ∧
    ((upsertMessage "t1" msgHello "C1" (upsertMessage "t1" msgHello "C1" emptyStore)).fts.filter
      (fun e => e.rowid == emptyStore.nextRowid)).length = 1 := by
  have h := upsert_idempotent "t1" "C1" chGeneral userDemo msgHello emptyStore
  exact ⟨h.2.2.1, h.1, h.2.1, h.2.2.2 (by decide) (by decide)⟩

/-- `setPollCursor` touches only the `poll_cursors` table. -/
theorem setPollCursor_messages (now ch ts : String) (s : Store) :
    (setPollCursor now ch ts s).messages = s.messages := by
  unfold setPollCursor
  cases s.pollCursors.find? (fun r => r.1 == ch) <;> rfl

/-- C7. A channel polled for the first time (sentinel poll cursor `'0'`,
i.e. no prior row or a stored `'0'`): `pollChannel` performs zero
`conversations.history` fetches and zero message upserts, emits no
notifications, and only sets the channel's poll cursor to the current time
`String(Date.now() / 1000)` — it never touches stored messages, whatever
the network would have returned. -/
theorem pollChannel_sentinel_no_backfill (now nowTs ch : String)
    (outcomes : List FetchOutcome) (tp : String → List HistoryPage) (s : Store)
    (h0 : getPollCursor s ch = "0") (hlt : "0" < nowTs) :
    (runPollChannel now nowTs ch outcomes tp s).fetches = 0 ∧
    (runPollChannel now nowTs ch outcomes tp s).upserts = 0 ∧
    (runPollChannel now nowTs ch outcomes tp s).notifications = [] ∧
    (runPollChannel now nowTs ch outcomes tp s).store = setPollCursor now ch nowTs s ∧
    getPollCursor (runPollChannel now nowTs ch outcomes tp s).store ch = nowTs ∧
    (runPollChannel now nowTs ch outcomes tp s).store.messages = s.messages := by
  have hrun : runPollChannel now nowTs ch outcomes tp s =
      { store := setPollCursor now ch nowTs s, newest := getPollCursor s ch,
        fetches := 0, upserts := 0, notifications := [], authFailed := false } := by
    unfold runPollChannel
    rw [h0]
    rfl
  rw [hrun]
  have hcursor : getPollCursor (setPollCursor now ch nowTs s) ch = nowTs := by
    cases hf : s.pollCursors.find? (fun r => r.1 == ch) with
    | none => exact (getPollCursor_set_of_absent now nowTs hf).1
    | some r =>
      have hrowex : hasPollRow s ch := by unfold hasPollRow; rw [hf]; rfl
      rw [(getPollCursor_set_of_present now nowTs hrowex).1, h0]
      exact max_eq_right hlt.le
  exact ⟨rfl, rfl, rfl, rfl, hcursor, setPollCursor_messages now ch nowTs s⟩

/-- C7 witness: the sentinel branch evaluated on a fresh store, with a
network replay that would error if consulted. -/
theorem pollChannel_sentinel_no_backfill_witness :
    (runPollChannel "n" "1760198400.5" "C1" [FetchOutcome.otherErr]
      (fun _ => []) emptyStore).fetches = 0 ∧
    (runPollChannel "n" "1760198400.5" "C1" [FetchOutcome.otherErr]
      (fun _ => []) emptyStore).upserts = 0 ∧
    (runPollChannel "n" "1760198400.5" "C1" [FetchOutcome.otherErr]
      (fun _ => []) emptyStore).notifications = [] ∧
    (runPollChannel "n" "1760198400.5" "C1" [FetchOutcome.otherErr]
      (fun _ => []) emptyStore).store = setPollCursor "n" "C1" "1760198400.5" emptyStore ∧
    getPollCursor (runPollChannel "n" "1760198400.5" "C1" [FetchOutcome.otherErr]
      (fun _ => []) emptyStore).store "C1" = "1760198400.5" ∧
    (runPollChannel "n" "1760198400.5" "C1" [FetchOutcome.otherErr]
      (fun _ => []) emptyStore).store.messages = [] :=
  pollChannel_sentinel_no_backfill "n" "1760198400.5" "C1" [FetchOutcome.otherErr]
    (fun _ => []) emptyStore (by decide) (by decide)

/-- C10. When `upsertMessage` hits the `(channel_id, ts)` conflict, the
stored row keeps its `user_id`, `thread_ts` and `imported_at` (and rowid)
unchanged, while exactly `text`, `reply_count`, `reactions`, `attachments`,
`permalink`, `raw`, `subtype`, `edited_at`, `blocks`, `bot_id` and
`bot_profile_name` are overwritten from the incoming message; the row count,
the full-text index and the rowid counter are untouched. -/
theorem upsertMessage_conflict_frame (now : String) (msg : SlackMsg) (cid : String)
    (s : Store) (r : MessageRow)
    (hf : s.messages.find? (msgKeyIs cid msg.ts) = some r) :
    ∃ r', (upsertMessage now msg cid s).messages.find? (msgKeyIs cid msg.ts) = some r' ∧
      r'.user_id = r.user_id ∧ r'.thread_ts = r.thread_ts ∧
      r'.imported_at = r.imported_at ∧ r'.rowid = r.rowid ∧
      r'.text = msg.text.getD "" ∧ r'.reply_count = msg.reply_count.getD 0 ∧
      r'.reactions = msg.reactions ∧ r'.attachments = msg.attachments ∧
      r'.permalink = msg.permalink ∧ r'.raw = msg.rawJson ∧
      r'.subtype = msg.subtype ∧ r'.edited_at = msg.edited_ts ∧
      r'.blocks = msg.blocks ∧ r'.bot_id = msg.bot_id ∧
      r'.bot_profile_name = msg.bot_profile_name ∧
      (upsertMessage now msg cid s).fts = s.fts ∧
      (upsertMessage now msg cid s).nextRowid = s.nextRowid ∧
      (upsertMessage now msg cid s).messages.length = s.messages.length := by
  have hpr := List.find?_some hf
  rw [upsertMessage_update_eq now hf]
  refine ⟨updatedMsgRow msg r, ?_, rfl, rfl, rfl, rfl, rfl, rfl, rfl, rfl, rfl, rfl,
    rfl, rfl, rfl, rfl, rfl, rfl, rfl, ?_⟩
  · show (updateWhere (msgKeyIs cid msg.ts) (updatedMsgRow msg) s.messages).find?
      (msgKeyIs cid msg.ts) = some (updatedMsgRow msg r)
    exact find?_updateWhere hf (by rw [msgKeyIs_updatedMsgRow]; exact hpr)
  · show (updateWhere (msgKeyIs cid msg.ts) (updatedMsgRow msg) s.messages).length
      = s.messages.length
    exact length_updateWhere s.messages

/-- C10 witness: re-upserting the `(C1, 1700000000.000100)` identity with
new content keeps the original author, thread parent and import time. -/
theorem upsertMessage_conflict_frame_witness :
    ∃ r', (upsertMessage "t2" msgGoodbye "C1"
        (upsertMessage "t1" msgHello "C1" emptyStore)).messages.find?
        (msgKeyIs "C1" "1700000000.000100") = some r' ∧
      r'.user_id = some "U1" ∧ r'.thread_ts = none ∧ r'.imported_at = "t1" ∧
      r'.rowid = 1 ∧ r'.text = "goodbye" ∧ r'.reply_count = 0 ∧ r'.reactions = none ∧
      r'.attachments = none ∧ r'.permalink = none ∧ r'.raw = msgGoodbye.rawJson ∧
      r'.subtype = none ∧ r'.edited_at = none ∧ r'.blocks = none ∧ r'.bot_id = none ∧
      r'.bot_profile_name = none ∧
      (upsertMessage "t2" msgGoodbye "C1"
        (upsertMessage "t1" msgHello "C1" emptyStore)).fts
        = (upsertMessage "t1" msgHello "C1" emptyStore).fts ∧
      (upsertMessage "t2" msgGoodbye "C1"
        (upsertMessage "t1" msgHello "C1" emptyStore)).nextRowid
        = (upsertMessage "t1" msgHello "C1" emptyStore).nextRowid ∧
      (upsertMessage "t2" msgGoodbye "C1"
        (upsertMessage "t1" msgHello "C1" emptyStore)).messages.length
        = (upsertMessage "t1" msgHello "C1" emptyStore).messages.length :=
  upsertMessage_conflict_frame "t2" msgGoodbye "C1"
    (upsertMessage "t1" msgHello "C1" emptyStore)
    (insertedMsgRow "t1" msgHello "C1" 1) (by decide)

/-- C8. A fresh channel (no import cursor) whose history comes back as three
pages of 200, 200 and 50 thread-free messages: `importChannel` upserts
exactly 450 messages, and its terminal cursor write leaves the ImportCursor
equal to the maximum timestamp among all 450 messages (every timestamp is
above the `'0'` seed). Moreover the cursor write is the terminal step: for
*every* network replay, however the paging loop exits, the resulting store
has an import-cursor row for the channel. -/
theorem importChannel_fresh_backfill (now cid c1 c2 : String)
    (tp : String → List HistoryPage) (p1 p2 p3 : List SlackMsg) (s : Store)
    (hfresh : getImportCursor s cid = none)
    (h1 : p1.length = 200) (h2 : p2.length = 200) (h3 : p3.length = 50)
    (hnothreads : ∀ m ∈ p1 ++ p2 ++ p3, m.reply_count.getD 0 = 0)
    (hts : ∀ m ∈ p1 ++ p2 ++ p3, "0" < m.ts) :
    (runImportChannel now cid
      [.page ⟨p1, some c1⟩, .page ⟨p2, some c2⟩, .page ⟨p3, none⟩] tp s).upsertCalls
      = 450 ∧
    (∃ M, getImportCursor (runImportChannel now cid
        [.page ⟨p1, some c1⟩, .page ⟨p2, some c2⟩, .page ⟨p3, none⟩] tp s).store cid
        = some M ∧
      M ∈ (p1 ++ p2 ++ p3).map (fun m => m.ts) ∧
      ∀ t ∈ (p1 ++ p2 ++ p3).map (fun m => m.ts), t ≤ M) ∧
    (∀ outcomes : List FetchOutcome,
      (getImportCursor (runImportChannel now cid outcomes tp s).store cid).isSome = true) := by
  have hp1 : ∀ m ∈ p1, m.reply_count.getD 0 = 0 := by
    intro m hm
    exact hnothreads m (by simp [hm])
  have hp2 : ∀ m ∈ p2, m.reply_count.getD 0 = 0 := by
    intro m hm
    exact hnothreads m (by simp [hm])
  have hp3 : ∀ m ∈ p3, m.reply_count.getD 0 = 0 := by
    intro m hm
    exact hnothreads m (by simp [hm])
  have hb1 := importPageBody_no_threads now cid tp p1 s "0" hp1
  have hb2 := importPageBody_no_threads now cid tp p2
    (p1.foldl (fun acc m => upsertMessage now m cid acc) s)
    (p1.foldl (fun nt m => if nt < m.ts then m.ts else nt) "0") hp2
  have hb3 := importPageBody_no_threads now cid tp p3
    (p2.foldl (fun acc m => upsertMessage now m cid acc)
      (p1.foldl (fun acc m => upsertMessage now m cid acc) s))
    (p2.foldl (fun nt m => if nt < m.ts then m.ts else nt)
      (p1.foldl (fun nt m => if nt < m.ts then m.ts else nt) "0")) hp3
  have hloop : importLoop now cid tp
      [.page ⟨p1, some c1⟩, .page ⟨p2, some c2⟩, .page ⟨p3, none⟩] none s "0" 0
      = (p3.foldl (fun acc m => upsertMessage now m cid acc)
          (p2.foldl (fun acc m => upsertMessage now m cid acc)
            (p1.foldl (fun acc m => upsertMessage now m cid acc) s)),
         p3.foldl (fun nt m => if nt < m.ts then m.ts else nt)
          (p2.foldl (fun nt m => if nt < m.ts then m.ts else nt)
            (p1.foldl (fun nt m => if nt < m.ts then m.ts else nt) "0")),
         ((0 + p1.length) + p2.length) + p3.length) := by
    simp only [importLoop]
    try dsimp only
    rw [hb1]
    try dsimp only
    rw [hb2]
    try dsimp only
    rw [hb3]
  have hrun : runImportChannel now cid
      [.page ⟨p1, some c1⟩, .page ⟨p2, some c2⟩, .page ⟨p3, none⟩] tp s
      = { store := importCursorUpsert now cid
            (p3.foldl (fun nt m => if nt < m.ts then m.ts else nt)
              (p2.foldl (fun nt m => if nt < m.ts then m.ts else nt)
                (p1.foldl (fun nt m => if nt < m.ts then m.ts else nt) "0")))
            (p3.foldl (fun acc m => upsertMessage now m cid acc)
              (p2.foldl (fun acc m => upsertMessage now m cid acc)
                (p1.foldl (fun acc m => upsertMessage now m cid acc) s))),
          upsertCalls := ((0 + p1.length) + p2.length) + p3.length } := by
    unfold runImportChannel
    rw [hfresh]
    simp only [Option.getD]
    rw [hloop]
  have hN3 : p3.foldl (fun nt m => if nt < m.ts then m.ts else nt)
        (p2.foldl (fun nt m => if nt < m.ts then m.ts else nt)
          (p1.foldl (fun nt m => if nt < m.ts then m.ts else nt) "0"))
      = ((p1 ++ p2 ++ p3).map (fun m => m.ts)).foldl max "0" := by
    rw [foldl_newest_eq, foldl_newest_eq, foldl_newest_eq]
    rw [List.map_append, List.map_append, List.foldl_append, List.foldl_append]
  refine ⟨?_, ?_, ?_⟩
  · rw [hrun]
    show ((0 + p1.length) + p2.length) + p3.length = 450
    rw [h1, h2, h3]
  · refine ⟨((p1 ++ p2 ++ p3).map (fun m => m.ts)).foldl max "0", ?_, ?_, ?_⟩
    · rw [hrun]
      show getImportCursor (importCursorUpsert now cid _ _) cid = _
      rw [getImportCursor_upsert, hN3]
    · rcases foldl_max_mem ((p1 ++ p2 ++ p3).map (fun m => m.ts)) "0" with hm | hm
      · obtain ⟨m0, hm0⟩ := List.exists_mem_of_length_pos
          (show 0 < p1.length by rw [h1]; omega)
        have hmem0 : m0.ts ∈ (p1 ++ p2 ++ p3).map (fun m => m.ts) :=
          List.mem_map_of_mem _ (by simp [hm0])
        have hle := foldl_max_of_mem ((p1 ++ p2 ++ p3).map (fun m => m.ts)) "0" m0.ts hmem0
        rw [hm] at hle
        exact absurd (lt_of_lt_of_le (hts m0 (by simp [hm0])) hle) (lt_irrefl "0")
      · exact hm
    · intro t ht
      exact foldl_max_of_mem _ _ t ht
  · intro outcomes
    simp [runImportChannel, getImportCursor_upsert]

/-- C8 witness: the theorem applied to the concrete 200/200/50 scenario
over an empty store. -/
theorem importChannel_fresh_backfill_witness :
    (runImportChannel "t0" "C1"
      [.page ⟨backfillPage1, some "c1"⟩, .page ⟨backfillPage2, some "c2"⟩,
        .page ⟨backfillPage3, none⟩] (fun _ => []) emptyStore).upsertCalls = 450 ∧
    (∃ M, getImportCursor (runImportChannel "t0" "C1"
        [.page ⟨backfillPage1, some "c1"⟩, .page ⟨backfillPage2, some "c2"⟩,
          .page ⟨backfillPage3, none⟩] (fun _ => []) emptyStore).store "C1" = some M ∧
      M ∈ (backfillPage1 ++ backfillPage2 ++ backfillPage3).map (fun m => m.ts) ∧
      ∀ t ∈ (backfillPage1 ++ backfillPage2 ++ backfillPage3).map (fun m => m.ts), t ≤ M) ∧
    (∀ outcomes : List FetchOutcome,
      (getImportCursor (runImportChannel "t0" "C1" outcomes
        (fun _ => []) emptyStore).store "C1").isSome = true) :=
  importChannel_fresh_backfill "t0" "C1" "c1" "c2" (fun _ => [])
    backfillPage1 backfillPage2 backfillPage3 emptyStore
    (by decide) (by decide) (by decide) (by decide) (by decide) (by decide)

/-! ## Query-layer lemmas -/

theorem askLoop_keys (s : Store) (cw : Nat) :
    ∀ (hits : List SearchHit) (acc : List (String × ContextBlock)),
      (askLoop s cw hits acc).map Prod.fst
        = collectKeys (hits.map keyOf) (acc.map Prod.fst) := by
  intro hits
  induction hits with
  | nil => intro acc; rfl
  | cons h rest ih =>
    intro acc
    by_cases hmem : keyOf h ∈ acc.map Prod.fst
    · have hany : (acc.any fun e => e.1 == keyOf h) = true := by
        rw [List.any_eq_true]
        obtain ⟨e, he, heq⟩ := List.mem_map.mp hmem
        exact ⟨e, he, by simp [heq]⟩
      rw [askLoop, List.map_cons, collectKeys]
      simp only [hany, if_true, if_pos hmem]
      exact ih acc
    · have hany : (acc.any fun e => e.1 == keyOf h) = false := by
        rw [List.any_eq_false]
        intro e he heq
        exact hmem (List.mem_map.mpr ⟨e, he, by simpa using heq⟩)
      rw [askLoop, List.map_cons, collectKeys]
      simp only [hany, Bool.false_eq_true, if_false, if_neg hmem]
      rw [ih (acc ++ [(keyOf h, blockFor s cw h)]), List.map_append]
      rfl

theorem collectKeys_nodup :
    ∀ (ks seen : List String), seen.Nodup → (collectKeys ks seen).Nodup := by
  intro ks
  induction ks with
  | nil => intro seen h; exact h
  | cons k rest ih =>
    intro seen h
    rw [collectKeys]
    by_cases hk : k ∈ seen
    · rw [if_pos hk]
      exact ih seen h
    · rw [if_neg hk]
      refine ih (seen ++ [k]) ?_
      simp [List.nodup_append, h, hk]

theorem collectKeys_toFinset :
    ∀ (ks seen : List String),
      (collectKeys ks seen).toFinset = seen.toFinset ∪ ks.toFinset := by
  intro ks
  induction ks with
  | nil => intro seen; simp [collectKeys]
  | cons k rest ih =>
    intro seen
    rw [collectKeys]
    by_cases hk : k ∈ seen
    · rw [if_pos hk, ih seen, List.toFinset_cons]
      ext x
      simp only [Finset.mem_union, List.mem_toFinset, Finset.mem_insert]
      constructor
      · rintro (hx | hx)
        · exact Or.inl hx
        · exact Or.inr (Or.inr hx)
      · rintro (hx | rfl | hx)
        · exact Or.inl hx
        · exact Or.inl hk
        · exact Or.inr hx
    · rw [if_neg hk, ih (seen ++ [k])]
      ext x
      simp
      tauto

/-- C9. `ask` produces exactly one context block per distinct
`(channel id, thread-ts-or-self-ts)` key among the hits — the `contextMap`
loop skips any hit whose key was already expanded — so the number of
context blocks equals the number of distinct keys. In particular, for 5
hits of which 2 share the same thread key, `ask` returns exactly 4 context
blocks. -/
theorem ask_dedup_context_blocks :
    (∀ (s : Store) (cw : Nat) (hits : List SearchHit),
      (askContext s cw hits).length = ((hits.map keyOf).toFinset).card) ∧
    (askContext emptyStore 6
      [⟨"100.1", "C1", some "general", some "100.0"⟩,
       ⟨"100.2", "C1", some "general", some "100.0"⟩,
       ⟨"100.3", "C1", some "general", none⟩,
       ⟨"100.4", "C2", some "ops", some "100.0"⟩,
       ⟨"100.5", "C2", some "ops", none⟩]).length = 4 := by
  constructor
  · intro s cw hits
    have hkeys := askLoop_keys s cw hits []
    rw [List.map_nil] at hkeys
    have hlen : (askContext s cw hits).length
        = (collectKeys (hits.map keyOf) []).length := by
      rw [← hkeys]
      exact (List.length_map _ _).symm
    rw [hlen]
    rw [← List.toFinset_card_of_nodup (collectKeys_nodup (hits.map keyOf) [] List.nodup_nil)]
    rw [collectKeys_toFinset]
    simp
  · decide

/-! ## Scheduler lemmas -/

theorem mem_set_self :
    ∀ (l : List α) (w : Nat) (x z : α), l[w]? = some z → x ∈ l.set w x := by
  intro l
  induction l with
  | nil => intro w x z h; simp at h
  | cons a as ih =>
    intro w x z h
    cases w with
    | zero => exact List.mem_cons_self x as
    | succ w' =>
      rw [List.set_cons_succ]
      exact List.mem_cons_of_mem a (ih w' x z (by simpa using h))

theorem mem_set_of_ne :
    ∀ (l : List α) (w : Nat) (x y z : α), l[w]? = some z → y ∈ l → y ≠ z →
      y ∈ l.set w x := by
  intro l
  induction l with
  | nil => intro w x y z h; simp at h
  | cons a as ih =>
    intro w x y z h hy hne
    cases w with
    | zero =>
      have hz : a = z := by simpa using h
      rcases List.mem_cons.mp hy with rfl | hy'
      · exact absurd hz hne
      · exact List.mem_cons_of_mem x hy'
    | succ w' =>
      rw [List.set_cons_succ]
      rcases List.mem_cons.mp hy with rfl | hy'
      · exact List.mem_cons_self y _
      · exact List.mem_cons_of_mem a (ih w' x y z (by simpa using h) hy' hne)

/-- The inductive invariant of `parallelMap` runs: the pool size is fixed at
`min K n`; a resolved worker means the claim cursor has exhausted the items;
every claimed index is completed, in flight, or failed; and a failed worker
only ever holds a throwing item. -/
def pmInv (K n : Nat) (throws : Nat → Bool) (s : PMState) : Prop :=
  s.workers.length = min K n ∧
  (WStatus.done ∈ s.workers → n ≤ s.idx) ∧
  (∀ j, j < s.idx →
    j ∈ s.completed ∨ WStatus.running j ∈ s.workers ∨ WStatus.failed j ∈ s.workers) ∧
  (∀ i, WStatus.failed i ∈ s.workers → throws i = true)

theorem pmInv_init (K n : Nat) (throws : Nat → Bool) : pmInv K n throws (pmInit K n) := by
  refine ⟨List.length_replicate _ _, ?_, ?_, ?_⟩
  · intro hd
    have := List.eq_of_mem_replicate hd
    simp at this
  · intro j hj
    simp [pmInit] at hj
  · intro i hi
    have := List.eq_of_mem_replicate hi
    simp at this

theorem pmInv_step {K n : Nat} {throws : Nat → Bool} {s s' : PMState}
    (h : PMStep n throws s s') (hs : pmInv K n throws s) : pmInv K n throws s' := by
  obtain ⟨hlen, hdone, hcov, hfail⟩ := hs
  cases h with
  | claim w hw hidx =>
    refine ⟨by rw [List.length_set]; exact hlen, ?_, ?_, ?_⟩
    · intro hd
      rcases List.mem_or_eq_of_mem_set hd with hd' | hd'
      · exact le_trans (hdone hd') (Nat.le_succ _)
      · simp at hd'
    · intro j hj
      rcases Nat.lt_succ_iff_lt_or_eq.mp hj with hj' | rfl
      · rcases hcov j hj' with hc | hc | hc
        · exact Or.inl hc
        · exact Or.inr (Or.inl (mem_set_of_ne _ _ _ _ _ hw hc (by simp)))
        · exact Or.inr (Or.inr (mem_set_of_ne _ _ _ _ _ hw hc (by simp)))
      · exact Or.inr (Or.inl (mem_set_self _ _ _ _ hw))
    · intro i hi
      rcases List.mem_or_eq_of_mem_set hi with hi' | hi'
      · exact hfail i hi'
      · simp at hi'
  | exit w hw hidx =>
    refine ⟨by rw [List.length_set]; exact hlen, ?_, ?_, ?_⟩
    · intro _
      exact Nat.not_lt.mp hidx
    · intro j hj
      rcases hcov j hj with hc | hc | hc
      · exact Or.inl hc
      · exact Or.inr (Or.inl (mem_set_of_ne _ _ _ _ _ hw hc (by simp)))
      · exact Or.inr (Or.inr (mem_set_of_ne _ _ _ _ _ hw hc (by simp)))
    · intro i hi
      rcases List.mem_or_eq_of_mem_set hi with hi' | hi'
      · exact hfail i hi'
      · simp at hi'
  | finish w i hw ht =>
    refine ⟨by rw [List.length_set]; exact hlen, ?_, ?_, ?_⟩
    · intro hd
      rcases List.mem_or_eq_of_mem_set hd with hd' | hd'
      · exact hdone hd'
      · simp at hd'
    · intro j hj
      rcases hcov j hj with hc | hc | hc
      · exact Or.inl (List.mem_cons_of_mem i hc)
      · by_cases hji : j = i
        · subst hji
          exact Or.inl (List.mem_cons_self j _)
        · refine Or.inr (Or.inl (mem_set_of_ne _ _ _ _ _ hw hc ?_))
          simp [hji]
      · exact Or.inr (Or.inr (mem_set_of_ne _ _ _ _ _ hw hc (by simp)))
    · intro i' hi'
      rcases List.mem_or_eq_of_mem_set hi' with hh | hh
      · exact hfail i' hh
      · simp at hh
  | throw w i hw ht =>
    refine ⟨by rw [List.length_set]; exact hlen, ?_, ?_, ?_⟩
    · intro hd
      rcases List.mem_or_eq_of_mem_set hd with hd' | hd'
      · exact hdone hd'
      · simp at hd'
    · intro j hj
      rcases hcov j hj with hc | hc | hc
      · exact Or.inl hc
      · by_cases hji : j = i
        · subst hji
          exact Or.inr (Or.inr (mem_set_self _ _ _ _ hw))
        · refine Or.inr (Or.inl (mem_set_of_ne _ _ _ _ _ hw hc ?_))
          simp [hji]
      · exact Or.inr (Or.inr (mem_set_of_ne _ _ _ _ _ hw hc (by simp)))
    · intro i' hi'
      rcases List.mem_or_eq_of_mem_set hi' with hh | hh
      · exact hfail i' hh
      · rw [show i' = i from by simpa using hh]
        exact ht

theorem pmReachable_inv {K n : Nat} {throws : Nat → Bool} {s : PMState}
    (h : pmReachable K n throws s) : pmInv K n throws s := by
  induction h with
  | refl => exact pmInv_init K n throws
  | tail _ hstep ih => exact pmInv_step hstep ih

/-- C5. In every reachable state of a `parallelMap(items, K, fn)` run the
pool holds exactly `min K n` workers, each with at most one item in flight,
so never more than `K` items are in flight simultaneously; and when no item
throws, once every worker promise has settled (for a positive concurrency
limit) every one of the `n` items has completed. -/
theorem parallelMap_bounded_concurrency (K n : Nat) (throws : Nat → Bool) (s : PMState)
    (hr : pmReachable K n throws s) :
    s.workers.length = min K n ∧
    (s.workers.filter WStatus.isRunning).length ≤ K ∧
    (pmSettled s → (∀ i, throws i = false) → 0 < K → ∀ j, j < n → j ∈ s.completed) := by
  obtain ⟨hlen, hdone, hcov, hfail⟩ := pmReachable_inv hr
  refine ⟨hlen, ?_, ?_⟩
  · calc (s.workers.filter WStatus.isRunning).length
        ≤ s.workers.length := List.length_filter_le _ _
      _ = min K n := hlen
      _ ≤ K := min_le_left K n
  · intro hset hth hK j hj
    have hpos : 0 < s.workers.length := by
      rw [hlen]
      exact lt_min hK (lt_of_le_of_lt (Nat.zero_le j) hj)
    obtain ⟨st, hst⟩ := List.exists_mem_of_length_pos hpos
    have hstd : st = WStatus.done := by
      have hs := hset st hst
      cases st with
      | done => rfl
      | failed i =>
        have := hfail i hst
        rw [hth i] at this
        exact absurd this (by simp)
      | idle => simp [WStatus.settled] at hs
      | running i => simp [WStatus.settled] at hs
    rw [hstd] at hst
    have hn : n ≤ s.idx := hdone hst
    rcases hcov j (lt_of_lt_of_le hj hn) with hc | hc | hc
    · exact hc
    · have := hset _ hc
      simp [WStatus.settled] at this
    · have := hfail j hc
      rw [hth j] at this
      exact absurd this (by simp)

/-- C5 witness: a complete run with one worker and one non-throwing item,
reaching the settled state `⟨1, [done], [0]⟩`; the theorem yields that item
0 completed. -/
theorem parallelMap_bounded_concurrency_witness :
    (0 : Nat) ∈ (⟨1, [WStatus.done], [0]⟩ : PMState).completed := by
  have hreach : pmReachable 1 1 (fun _ => false) ⟨1, [WStatus.done], [0]⟩ := by
    have r0 : pmReachable 1 1 (fun _ => false) (pmInit 1 1) := Relation.ReflTransGen.refl
    have r1 := r0.tail (PMStep.claim (pmInit 1 1) 0 rfl (by decide))
    have r2 := r1.tail (PMStep.finish _ 0 0 rfl rfl)
    have r3 := r2.tail (PMStep.exit _ 0 rfl (by decide))
    exact r3
  exact (parallelMap_bounded_concurrency 1 1 (fun _ => false) _ hreach).2.2
    (by decide) (fun i => rfl) (by decide) 0 (by decide)

/-- C3 counterexample. With concurrency 1 and two items where `fn` throws on
item 0, the run can settle (the single worker's promise rejects, so
`Promise.all` rejects) with item 1 never claimed and never executed —
refuting the claim that one item's thrown error never prevents later items
from being claimed and executed. -/
theorem parallelMap_throw_counterexample :
    pmReachable 1 2 throwsFirst ⟨1, [WStatus.failed 0], []⟩ ∧
    pmSettled ⟨1, [WStatus.failed 0], []⟩ ∧
    (1 : Nat) ∉ (⟨1, [WStatus.failed 0], []⟩ : PMState).completed ∧
    (⟨1, [WStatus.failed 0], []⟩ : PMState).idx = 1 := by
  refine ⟨?_, by decide, by decide, rfl⟩
  have r0 : pmReachable 1 2 throwsFirst (pmInit 1 2) := Relation.ReflTransGen.refl
  have r1 := r0.tail (PMStep.claim (pmInit 1 2) 0 rfl (by decide))
  have r2 := r1.tail (PMStep.throw _ 0 0 rfl rfl)
  exact r2

/-- C3 (amended). A thrown item rejects only the worker that claimed it:
in any settled reachable state of `parallelMap`, every *claimed* item has
either completed or is one whose `fn` threw — items claimed by other
workers are unaffected. But the rejected worker claims nothing further and
`Promise.all` rejects, so unclaimed items may never run (with concurrency 1
a single throw stops all later items) and all items are guaranteed to run
only when no item throws. -/
theorem parallelMap_throw_amended (K n : Nat) (throws : Nat → Bool) (s : PMState)
    (hr : pmReachable K n throws s) (hset : pmSettled s) :
    ∀ j, j < s.idx → j ∈ s.completed ∨ throws j = true := by
  obtain ⟨hlen, hdone, hcov, hfail⟩ := pmReachable_inv hr
  intro j hj
  rcases hcov j hj with hc | hc | hc
  · exact Or.inl hc
  · have := hset _ hc
    simp [WStatus.settled] at this
  · exact Or.inr (hfail j hc)

/-- C3 witness: two workers over two items, item 0 throwing; the run settles
as `⟨2, [failed 0, done], [1]⟩` and the theorem applied to claimed item 1
shows it completed (not being a throwing item). -/
theorem parallelMap_throw_amended_witness :
    (1 : Nat) ∈ (⟨2, [WStatus.failed 0, WStatus.done], [1]⟩ : PMState).completed ∨
      throwsFirst 1 = true := by
  have hreach : pmReachable 2 2 throwsFirst ⟨2, [WStatus.failed 0, WStatus.done], [1]⟩ := by
    have r0 : pmReachable 2 2 throwsFirst (pmInit 2 2) := Relation.ReflTransGen.refl
    have r1 := r0.tail (PMStep.claim (pmInit 2 2) 0 rfl (by decide))
    have r2 := r1.tail (PMStep.claim _ 1 rfl (by decide))
    have r3 := r2.tail (PMStep.throw _ 0 0 rfl rfl)
    have r4 := r3.tail (PMStep.finish _ 1 1 rfl rfl)
    have r5 := r4.tail (PMStep.exit _ 1 rfl (by decide))
    exact r5
  exact parallelMap_throw_amended 2 2 throwsFirst _ hreach (by decide) 1 (by decide)

end Slacker
